import Mathlib

/-! Ports, multiport banks and connections of reactor-cpp.

A shallow embedding of `port.hh`, `multiport_callback.hh` and `connection.hh`.

Objects that the C++ code reaches through pointers live in a `State`: a list of
ports and a list of banks, a pointer being `Option Nat` (`none` is `nullptr`,
`some i` addresses entry `i`).  Dereferencing a null or dangling pointer is
undefined behaviour in C++; the embedding then yields `none`.  `std::size_t` is
a natural number reduced modulo `2 ^ 64` wherever the code does arithmetic on it.
-/

/-- Number of values of `std::size_t` (64-bit). -/
def size_t_range : Nat := 2 ^ 64

/-- Outcome of a call that either returns a value or leaves by a C++ exception
(`what` is the message of the `std::runtime_error`). -/
inductive Completion (α : Type) where
  | returned (value : α)
  | thrown (what : String)
  deriving DecidableEq, Repr

namespace multiport

/-- `enum Strategy { Callback, Linear }`: `Callback` is the sparse strategy,
`Linear` the dense one. -/
inductive Strategy where
  | Callback
  | Linear
  deriving DecidableEq, Repr

/-- A `std::vector<std::size_t>`: `storage` is the allocated block (its length is
`capacity()`), `size` is `size()`.  Fresh storage is modelled as zeros. -/
structure SizeVector where
  storage : List Nat := []
  size : Nat := 0
  deriving DecidableEq, Repr

/-- `std::vector::capacity()`. -/
def SizeVector.capacity (v : SizeVector) : Nat := v.storage.length

/-- `std::vector::reserve(n)`: grows the allocation to exactly `n` entries when
`n` exceeds the capacity, keeping the `size()` constructed elements. -/
def SizeVector.reserve (v : SizeVector) (n : Nat) : SizeVector :=
  if n > v.capacity then
    { v with storage := v.storage.take v.size ++ List.replicate (n - v.size) 0 }
  else v

/-- `std::vector::operator[](i) = x`, an unchecked store into the allocation. -/
def SizeVector.store (v : SizeVector) (i x : Nat) : SizeVector :=
  { v with storage := v.storage.set i x }

/-- `std::vector::clear()`: the size becomes zero, the allocation is kept. -/
def SizeVector.clear (v : SizeVector) : SizeVector :=
  { v with size := 0 }

/-- `struct LockedPortList`: three pointers into a bank (here: the bank's
address, once per pointed-to member). -/
structure LockedPortList where
  size_ : Option Nat := none
  active_ports_ : Option Nat := none
  strategy_ : Option Nat := none
  deriving DecidableEq, Repr

/-- `class PortBankCallBack`: `data_` holds the member ports (their addresses). -/
structure PortBankCallBack where
  data_ : List Nat := []
  active_ports_ : SizeVector := {}
  size_ : Nat := 0
  strategy_ : Strategy := Strategy.Callback
  deriving DecidableEq, Repr

/-- `PortBankCallBack() noexcept = default`. -/
def PortBankCallBack.init : PortBankCallBack := {}

/-- `get_active_ports()` of the bank at address `b`. -/
def get_active_ports (b : Nat) : LockedPortList :=
  { size_ := some b, active_ports_ := some b, strategy_ := some b }

/-- `reserve(size)`: `data_.reserve(size)` changes no observable part of `data_`;
`active_ports_.reserve(2 * size)` with the product taken in `std::size_t`. -/
def PortBankCallBack.reserve (bank : PortBankCallBack) (size : Nat) : PortBankCallBack :=
  { bank with active_ports_ := bank.active_ports_.reserve ((2 * size) % size_t_range) }

/-- `push_back(elem)` / `emplace_back(args...)`. -/
def PortBankCallBack.push_back (bank : PortBankCallBack) (elem : Nat) : PortBankCallBack :=
  { bank with data_ := bank.data_ ++ [elem] }

/-- `std::iota(first, last, value)` over the elements of a vector. -/
def iota : List Nat → Nat → List Nat
  | [], _ => []
  | _ :: rest, value => value :: iota rest (value + 1)

/-- The range constructor `std::vector(first, first + n)` reading an allocation
from offset `first`: `none` when the range leaves the allocation. -/
def copy_range (storage : List Nat) : Nat → Nat → Option (List Nat)
  | _, 0 => some []
  | first, n + 1 =>
    match storage[first]? with
    | none => none
    | some x =>
      match copy_range storage (first + 1) n with
      | none => none
      | some rest => some (x :: rest)

/-- `active_ports_indices()`. -/
def PortBankCallBack.active_ports_indices (bank : PortBankCallBack) : Option (List Nat) :=
  if bank.strategy_ = Strategy.Linear then
    some (iota (List.replicate bank.data_.length 0) 0)
  else
    copy_range bank.active_ports_.storage 0 bank.size_

end multiport

namespace reactor

open multiport

/-- `class BasePort` together with the `value_ptr_` of `Port<T>`; the binding
and dependency sets that no modelled member function reads are left out. -/
structure Port (T : Type) where
  inward_binding_ : Option Nat := none
  active_ports_ : LockedPortList := {}
  index_ : Nat := 0
  present_ : Bool := false
  value_ptr_ : Option T := none
  deriving DecidableEq, Repr

/-- The objects reachable through pointers: ports and banks, by address. -/
structure State (T : Type) where
  ports : List (Port T) := []
  banks : List PortBankCallBack := []
  deriving DecidableEq, Repr

/-- Overwrites the port at address `p`. -/
def State.set_port {T : Type} (st : State T) (p : Nat) (port : Port T) : State T :=
  { st with ports := st.ports.set p port }

/-- Overwrites the bank at address `b`. -/
def State.set_bank {T : Type} (st : State T) (b : Nat) (bank : PortBankCallBack) : State T :=
  { st with banks := st.banks.set b bank }

/-- `BasePort::is_present()`; `fuel` bounds the depth of the recursion along
inward bindings. -/
def is_present {T : Type} (st : State T) : Nat → Nat → Option Bool
  | 0, _ => none
  | fuel + 1, p =>
    match st.ports[p]? with
    | none => none
    | some port =>
      match port.inward_binding_ with
      | some upstream => is_present st fuel upstream
      | none => some port.present_

/-- Applies `f` to the bank that the pointer `b` addresses. -/
def State.update_bank {T : Type} (st : State T) (b : Nat)
    (f : PortBankCallBack → PortBankCallBack) : Option (State T) :=
  match st.banks[b]? with
  | none => none
  | some bank => some (st.set_bank b (f bank))

/-- `BasePort::activate()`. -/
def activate {T : Type} (fuel : Nat) (st : State T) (p : Nat) :
    Option (Completion Bool × State T) :=
  match st.ports[p]? with
  | none => none
  | some port =>
    match is_present st fuel p with
    | none => none
    | some true => some (Completion.returned false, st)
    | some false =>
      match port.active_ports_.active_ports_ with
      | none => some (Completion.returned false, st)
      | some a =>
        match port.active_ports_.strategy_ with
        | none => none
        | some s =>
          match st.banks[s]? with
          | none => none
          | some sbank =>
            if sbank.strategy_ = Strategy.Callback then
              match port.active_ports_.size_ with
              | none => none
              | some z =>
                match st.banks[z]? with
                | none => none
                | some zbank =>
                  let calculated_index := zbank.size_
                  match st.update_bank z
                      (fun k => { k with size_ := (k.size_ + 1) % size_t_range }) with
                  | none => none
                  | some st1 =>
                    match st1.banks[a]? with
                    | none => none
                    | some abank =>
                      if calculated_index ≥ abank.active_ports_.capacity then
                        some (Completion.thrown "setting to much ports", st1)
                      else
                        let switched :=
                          if (calculated_index * 100) % size_t_range
                              / abank.active_ports_.capacity > 20 then
                            st1.update_bank s (fun k => { k with strategy_ := Strategy.Linear })
                          else some st1
                        match switched with
                        | none => none
                        | some st2 =>
                          match st2.update_bank a (fun k => { k with
                              active_ports_ := k.active_ports_.store calculated_index port.index_ }) with
                          | none => none
                          | some st3 => some (Completion.returned true, st3)
            else some (Completion.returned false, st)

/-- `BasePort::clear()`. -/
def clear {T : Type} (st : State T) (p : Nat) : Option (State T) :=
  match st.ports[p]? with
  | none => none
  | some port =>
    let st1 := st.set_port p { port with present_ := false }
    match port.active_ports_.active_ports_ with
    | none => some st1
    | some a =>
      match port.active_ports_.size_ with
      | none => none
      | some z =>
        match st1.banks[z]? with
        | none => none
        | some zbank =>
          if zbank.size_ = 0 then some st1
          else
            match st1.update_bank z (fun k => { k with size_ := 0 }) with
            | none => none
            | some st2 =>
              st2.update_bank a (fun k => { k with active_ports_ := k.active_ports_.clear })

/-- `BasePort::deactivate()`. -/
def deactivate {T : Type} (st : State T) (p : Nat) : Option (State T) :=
  match st.ports[p]? with
  | none => none
  | some port =>
    some (st.set_port p { port with
      active_ports_ := { port.active_ports_ with active_ports_ := none, size_ := none } })

/-- `Port<T>::cleanup()`: `value_ptr_ = nullptr; clear();`. -/
def cleanup {T : Type} (st : State T) (p : Nat) : Option (State T) :=
  match st.ports[p]? with
  | none => none
  | some port => clear (st.set_port p { port with value_ptr_ := none }) p

/-- Activating the ports of a list one after another; an exception ends the run. -/
def activate_each {T : Type} (fuel : Nat) : State T → List Nat →
    Option (Completion (List Bool) × State T)
  | st, [] => some (Completion.returned [], st)
  | st, p :: rest =>
    match activate fuel st p with
    | none => none
    | some (Completion.thrown what, st1) => some (Completion.thrown what, st1)
    | some (Completion.returned r, st1) =>
      match activate_each fuel st1 rest with
      | none => none
      | some (Completion.thrown what, st2) => some (Completion.thrown what, st2)
      | some (Completion.returned rs, st2) => some (Completion.returned (r :: rs), st2)

end reactor

namespace reactor

open multiport

/-- The `index_` of the port at address `p` (0 for a dangling address). -/
def index_of {T : Type} (st : State T) (p : Nat) : Nat :=
  match st.ports[p]? with
  | some port => port.index_
  | none => 0

/-- The port at `p` is a member of the bank at `b` (it holds that bank's
`get_active_ports()`) and `is_present()` returns false on it. -/
def attached_absent {T : Type} (fuel : Nat) (st : State T) (b p : Nat) : Prop :=
  (st.ports[p]?).map (fun q => q.active_ports_) = some (get_active_ports b) ∧
    is_present st fuel p = some false

instance {T : Type} (fuel : Nat) (st : State T) (b p : Nat) :
    Decidable (attached_absent fuel st b p) := by
  unfold attached_absent
  infer_instance

/-- Successive stores `storage[s] = x₀, storage[s+1] = x₁, ...`. -/
def store_each : List Nat → Nat → List Nat → List Nat
  | storage, _, [] => storage
  | storage, s, x :: xs => store_each (storage.set s x) (s + 1) xs

end reactor

namespace reactor

open multiport

/-- A bank of 50 ports at address 0, set up with `reserve(50)` (capacity 100);
port `i` has `index_ = i`, every port is absent. -/
def bank50 : State Nat :=
  { ports := (List.range 50).map (fun i =>
      { active_ports_ := get_active_ports 0, index_ := i }),
    banks := [{ (PortBankCallBack.init.reserve 50) with data_ := List.range 50 }] }

/-- A bank of 100 ports at address 0, set up with `reserve(100)`; port `i` has
`index_ = i`, every port is absent. -/
def bank100 : State Nat :=
  { ports := (List.range 100).map (fun i =>
      { active_ports_ := get_active_ports 0, index_ := i }),
    banks := [{ (PortBankCallBack.init.reserve 100) with data_ := List.range 100 }] }

end reactor

namespace multiport

/-- Reference definition of `active_indices()` in the words of the
specification: the dense range `[0, N)` when the strategy is Dense, and
`active[0..count)` when it is Sparse. -/
def active_indices_reference (bank : PortBankCallBack) : List Nat :=
  match bank.strategy_ with
  | Strategy.Linear => List.range bank.data_.length
  | Strategy.Callback => bank.active_ports_.storage.take bank.size_

end multiport

namespace reactor

/-- Walks the inward bindings: `chain_root st n p = some r` says that following
`inward_binding_` from port `p` for exactly `n` steps ends at port `r`, and
that `r` has no inward binding. -/
def chain_root {T : Type} (st : State T) : Nat → Nat → Option Nat
  | 0, p =>
    match st.ports[p]? with
    | none => none
    | some port => if port.inward_binding_ = none then some p else none
  | n + 1, p =>
    match st.ports[p]? with
    | none => none
    | some port =>
      match port.inward_binding_ with
      | some upstream => chain_root st n upstream
      | none => none

/-- The port reached from `p` after `i` steps along the inward bindings. -/
def upstream {T : Type} (st : State T) : Nat → Nat → Option Nat
  | 0, p => some p
  | i + 1, p =>
    match st.ports[p]? with
    | none => none
    | some port =>
      match port.inward_binding_ with
      | some u => upstream st i u
      | none => none

/-- Six ports in a chain of depth 5: port 0 is the root and is present, port
`i + 1` is bound to port `i` and has its local flag cleared. -/
def chain6 : State Nat :=
  { ports := [
      { present_ := true, value_ptr_ := some 7 },
      { inward_binding_ := some 0 },
      { inward_binding_ := some 1 },
      { inward_binding_ := some 2 },
      { inward_binding_ := some 3 },
      { inward_binding_ := some 4 }] }

end reactor

namespace multiport

/-- The pointers that `clear()` dereferences address banks among the first `n`:
when `active_ports_` is not null, it and `size_` are valid. -/
def LockedPortList.valid_in (l : LockedPortList) (n : Nat) : Bool :=
  match l.active_ports_ with
  | none => true
  | some a =>
    decide (a < n) &&
      (match l.size_ with
      | none => false
      | some z => decide (z < n))

end multiport

namespace reactor

open multiport

/-- A bank at address 0 set up with `reserve(1)` (capacity 2) that has three
member ports, all absent. -/
def bank_small : State Nat :=
  { ports := (List.range 3).map (fun i =>
      { active_ports_ := get_active_ports 0, index_ := i }),
    banks := [{ (PortBankCallBack.init.reserve 1) with data_ := List.range 3 }] }

/-- A bank at address 0 on which `reserve` was never called (capacity 0), with
two member ports, both absent. -/
def bank_unreserved : State Nat :=
  { ports := (List.range 2).map (fun i =>
      { active_ports_ := get_active_ports 0, index_ := i }),
    banks := [{ PortBankCallBack.init with data_ := List.range 2 }] }

/-- `Duration`, a `std::chrono::nanoseconds` count. -/
abbrev Duration := Int

/-- Modelled from the spec: `action.hh` is not among the sources.  The
`BaseAction` sub-object of a connection ("a specialized schedulable action") is
recorded as the arguments that the `Connection` constructor passes to
`BaseAction(name, container, true, delay)`; the container pointer is left out. -/
structure BaseAction where
  name : String
  flag : Bool
  delay : Duration
  deriving DecidableEq, Repr

/-- `class Connection<T>`: the two port pointers, the member `delay_` with its
default member initialiser `{0}`, and the base sub-object. -/
structure Connection where
  base : BaseAction
  incoming_port_interface_ : Option Nat := none
  outgoing_port_interface_ : Option Nat := none
  delay_ : Duration := 0
  deriving DecidableEq, Repr

/-- `Connection(name, container, delay, incoming, outgoing)`: the initialiser
list is `BaseAction(name, container, true, delay)`, `incoming_port_interface_(incoming)`,
`outgoing_port_interface_(outgoing)`. -/
def Connection.construct (name : String) (delay : Duration) (incoming outgoing : Option Nat) :
    Connection :=
  { base := { name := name, flag := true, delay := delay },
    incoming_port_interface_ := incoming,
    outgoing_port_interface_ := outgoing }

/-- The arguments of one call `this->schedule(value, delay)`. -/
structure ScheduleCall (T : Type) where
  value : Option T
  delay : Duration
  deriving DecidableEq, Repr

/-- `Connection<T>::trigger()`: `this->schedule(incoming_port_interface_->get(), delay_)`.
`Port<T>::get()` is defined in `impl/port_impl.hh`, which is not among the
sources, so it is the parameter `get`; `schedule` belongs to the absent action
class, so the call is returned as its arguments. -/
def Connection.trigger {T : Type} (get : State T → Nat → Option (Option T)) (st : State T)
    (c : Connection) : Option (ScheduleCall T) :=
  match c.incoming_port_interface_ with
  | none => none
  | some source =>
    match get st source with
    | none => none
    | some value => some { value := value, delay := c.delay_ }

/-- A reading of a port's stored value, used to instantiate `get` in examples. -/
def stored_value {T : Type} (st : State T) (p : Nat) : Option (Option T) :=
  (st.ports[p]?).map (fun port => port.value_ptr_)

end reactor

namespace reactor

open multiport

/-- The arguments of one call `port->set(value)`. -/
structure SetCall (T : Type) where
  port : Nat
  value : Option T
  deriving DecidableEq, Repr

/-- `Connection<T>::setup()`:
`if (outgoing_port_interface_ != nullptr && outgoing_port_interface_ != nullptr)
   outgoing_port_interface_->set(incoming_port_interface_->get());`.
`Port<T>::set` and `Port<T>::get` are defined in `impl/port_impl.hh`, which is
not among the sources: `get` is a parameter and the call of `set` is returned
as its arguments (`some none` when the test fails and nothing is called). -/
def Connection.setup {T : Type} (get : State T → Nat → Option (Option T)) (st : State T)
    (c : Connection) : Option (Option (SetCall T)) :=
  if c.outgoing_port_interface_.isSome && c.outgoing_port_interface_.isSome then
    match c.outgoing_port_interface_ with
    | none => some none
    | some sink =>
      match c.incoming_port_interface_ with
      | none => none
      | some source =>
        match get st source with
        | none => none
        | some value => some (some { port := sink, value := value })
  else some none

/-- A pending firing of a connection: the logical time at which it is due and
the value it carries. -/
structure Event (T : Type) where
  time : Duration
  value : Option T
  deriving DecidableEq, Repr

/-- The ports and banks together with the state of the event subsystem: the
current logical time and the queue of pending firings. -/
structure Runtime (T : Type) where
  state : State T
  now : Duration
  pending : List (Event T)
  deriving DecidableEq, Repr

/-- Modelled from the spec: `Action<T>::schedule`, which `Connection<T>::trigger()`
calls, is declared in `action.hh`, a file that is not among the sources.  The
specification describes it as "`schedule(action, delay)`: enqueue a future
firing", and for a connection as "schedules a future firing of the connection at
`now + delay` (delay may be zero, meaning same step, after current propagation
pass, not instantaneous re-entry)": the firing is appended to the queue, due at
`now + delay`, and nothing is delivered by the call. -/
def Runtime.schedule {T : Type} (rt : Runtime T) (value : Option T) (delay : Duration) :
    Runtime T :=
  { rt with pending := rt.pending ++ [{ time := rt.now + delay, value := value }] }

/-- The effect of `Connection<T>::trigger()`, whose body is
`this->schedule(incoming_port_interface_->get(), delay_)`, on the ports and the
event subsystem. -/
def Connection.trigger_run {T : Type} (get : State T → Nat → Option (Option T))
    (rt : Runtime T) (c : Connection) : Option (Runtime T) :=
  match c.trigger get rt.state with
  | none => none
  | some call => some (rt.schedule call.value call.delay)

/-- `Connection<T>::get_set_callback()`: the closure
`[this](BasePort* port) { this->trigger(); return true; }`. -/
def Connection.get_set_callback {T : Type} (get : State T → Nat → Option (Option T))
    (c : Connection) (rt : Runtime T) (_port : Nat) : Option (Bool × Runtime T) :=
  match c.trigger_run get rt with
  | none => none
  | some rt2 => some (true, rt2)

/-- Two unbound ports: port 0 is present and holds the value 7, port 1 is
absent. -/
def wire2 : State Nat :=
  { ports := [{ present_ := true, value_ptr_ := some 7 }, {}] }

/-- The description of the element type `T` of a bank: whether `T` is a pointer
type (`std::is_pointer<T>::value`) and the names of the members of the class
(`std::remove_pointer_t<T>`). -/
structure ElementType where
  is_pointer : Bool
  members : List String
  deriving DecidableEq, Repr

/-- `has_deactivate<C>::value`, that is `sizeof(test<C>(0)) == sizeof(char)`: the
overload `test(decltype(&C::has_deactivate))` is viable exactly when the class
has a member named `has_deactivate`. -/
def has_deactivate (members : List String) : Bool :=
  members.contains "has_deactivate"

/-- The public member functions of `BasePort` together with those of `Port<T>`. -/
def port_members : List String :=
  ["is_input", "is_output", "is_present", "has_inward_binding", "has_outward_bindings",
   "has_dependencies", "has_anti_dependencies", "inward_binding", "outward_bindings",
   "triggers", "dependencies", "anti_dependencies", "activate", "clear", "deactivate",
   "bind_to", "typed_inward_binding", "typed_outward_bindings", "set", "startup",
   "shutdown", "get"]

/-- The loop `for (auto i = 0; i < data_.size(); i++) data_[i].deactivate();`. -/
def deactivate_all {T : Type} : State T → List Nat → Option (State T)
  | st, [] => some st
  | st, p :: rest =>
    match deactivate st p with
    | none => none
    | some st1 => deactivate_all st1 rest

/-- `~PortBankCallBack()`.  The loop counter is an `int`, so a bank of more than
`2 ^ 31 - 1` members overflows it (no result). -/
def PortBankCallBack.destroy {T : Type} (elem : ElementType) (st : State T)
    (bank : PortBankCallBack) : Option (State T) :=
  if elem.is_pointer then
    if !has_deactivate elem.members then
      if bank.data_.length ≤ 2147483647 then deactivate_all st bank.data_ else none
    else some st
  else
    if has_deactivate elem.members then
      if bank.data_.length ≤ 2147483647 then deactivate_all st bank.data_ else none
    else some st

end reactor

/-- What a call of `validate` raises. -/
inductive Raised where
  | nothing
  | ValidationError (message : String)
  deriving DecidableEq, Repr

/-- `reactor::validate(condition, message)`:
`if constexpr (runtime_validation && !condition) throw ValidationError(message);`
with the build-time constant `runtime_validation` as first argument.  The test
of an `if constexpr` has to be a constant expression.  With `runtime_validation`
false it is one (`condition` is never evaluated), the `throw` is discarded and
the call raises nothing.  With `runtime_validation` true the test reads the
function parameter `condition`, which is no constant expression: the function is
ill-formed and no build has a result for it. -/
def validate (runtime_validation _condition : Bool) (_message : String) : Option Raised :=
  if runtime_validation then none else some Raised.nothing

namespace reactor

open multiport

/-- One call of a member function of the port at the given address. -/
inductive PortCall where
  | activate (p : Nat)
  | clear (p : Nat)
  | cleanup (p : Nat)
  | deactivate (p : Nat)
  deriving DecidableEq, Repr

/-- The port on which a call is made. -/
def PortCall.port : PortCall → Nat
  | PortCall.activate p => p
  | PortCall.clear p => p
  | PortCall.cleanup p => p
  | PortCall.deactivate p => p

/-- The call is `activate()` or `clear()`. -/
def PortCall.is_activate_or_clear : PortCall → Bool
  | PortCall.activate _ => true
  | PortCall.clear _ => true
  | _ => false

/-- Runs one call: the message of the exception it left by, if any, and the
state afterwards. -/
def PortCall.step {T : Type} (fuel : Nat) (st : State T) :
    PortCall → Option (Option String × State T)
  | PortCall.activate p =>
    match reactor.activate fuel st p with
    | none => none
    | some (Completion.returned _, st1) => some (none, st1)
    | some (Completion.thrown what, st1) => some (some what, st1)
  | PortCall.clear p =>
    match reactor.clear st p with
    | none => none
    | some st1 => some (none, st1)
  | PortCall.cleanup p =>
    match reactor.cleanup st p with
    | none => none
    | some st1 => some (none, st1)
  | PortCall.deactivate p =>
    match reactor.deactivate st p with
    | none => none
    | some st1 => some (none, st1)

/-- Runs a sequence of calls one after another (an exception is caught and the
run goes on): the exceptions, call by call, and the final state. -/
def run_calls {T : Type} (fuel : Nat) : State T → List PortCall →
    Option (List (Option String) × State T)
  | st, [] => some ([], st)
  | st, c :: rest =>
    match c.step fuel st with
    | none => none
    | some (e, st1) =>
      match run_calls fuel st1 rest with
      | none => none
      | some (es, st2) => some (e :: es, st2)

/-- The port at `p` is a member of the bank at `b` (it holds that bank's
`get_active_ports()`) and `is_present()` returns on it. -/
def member {T : Type} (fuel : Nat) (st : State T) (b p : Nat) : Prop :=
  (st.ports[p]?).map (fun q => q.active_ports_) = some (get_active_ports b) ∧
    (is_present st fuel p).isSome = true

instance {T : Type} (fuel : Nat) (st : State T) (b p : Nat) :
    Decidable (member fuel st b p) := by
  unfold member
  infer_instance

/-- `class BaseMultiport`: the declaration (`multiport.hh`) is not among the
sources; these are the two members that `multiport.cc` uses, the atomic counter
`size_` and the vector `present_ports_` (its elements; the length is `size()`). -/
structure BaseMultiport where
  size_ : Nat := 0
  present_ports_ : List Nat := []
  deriving DecidableEq, Repr

/-- `BaseMultiport::set_present(index)`.  The macro `reactor_assert` is not among
the sources: when its condition `calculated_index < present_ports_.size()` is
false the call has no result here (the assertion aborts, or without it the store
leaves the vector). -/
def BaseMultiport.set_present (m : BaseMultiport) (index : Nat) :
    Option (Bool × BaseMultiport) :=
  let calculated_index := m.size_
  let m1 := { m with size_ := (m.size_ + 1) % size_t_range }
  if calculated_index < m1.present_ports_.length then
    some (true, { m1 with present_ports_ := m1.present_ports_.set calculated_index index })
  else none

/-- The closure returned by `BaseMultiport::get_set_callback(index)`, applied to
the port at address `port`. -/
def BaseMultiport.get_set_callback {T : Type} (fuel : Nat) (st : State T) (m : BaseMultiport)
    (index port : Nat) : Option (Bool × BaseMultiport) :=
  match is_present st fuel port with
  | none => none
  | some true => some (false, m)
  | some false => m.set_present index

end reactor

namespace reactor

open multiport

/-- Every bank of `st` is still there in `st2`, with the same members, and is
`Linear` in `st2` if it was `Linear` in `st`. -/
def keeps_dense {T : Type} (st st2 : State T) : Prop :=
  ∀ (b : Nat) (bank : PortBankCallBack), st.banks[b]? = some bank →
    ∃ bank2, st2.banks[b]? = some bank2 ∧ bank2.data_ = bank.data_ ∧
      (bank.strategy_ = Strategy.Linear → bank2.strategy_ = Strategy.Linear)

end reactor

namespace reactor

open multiport

/-- The bank of capacity 2 after its ports 0 and 1 have been activated: the
counter is 2 and the strategy is `Linear`. -/
def bank_small_dense : State Nat :=
  { ports := bank_small.ports,
    banks := [{ data_ := List.range 3, active_ports_ := { storage := [0, 1] }, size_ := 2,
                strategy_ := Strategy.Linear }] }

/-- The counter of a bank of capacity `C` is in the safe range: at most `C`, and
while the strategy is `Callback` every slot handed out so far was below the
threshold, `(count - 1) * 100 < 21 * C`. -/
def sparse_safe (C : Nat) (bank : PortBankCallBack) : Prop :=
  bank.active_ports_.capacity = C ∧ bank.size_ ≤ C ∧
    (bank.strategy_ = Strategy.Callback → bank.size_ * 100 < 21 * C + 100)

end reactor

namespace multiport

/-- The three pointers of a `LockedPortList` are usable in a state with `n`
banks: either `active_ports_` is null, or all three address one of the banks. -/
def LockedPortList.pointers_ok (l : LockedPortList) (n : Nat) : Bool :=
  match l.active_ports_ with
  | none => true
  | some a =>
    decide (a < n) &&
      (match l.size_ with
       | none => false
       | some z => decide (z < n)) &&
      (match l.strategy_ with
       | none => false
       | some s => decide (s < n))

end multiport

namespace reactor

open multiport

/-- A state in which every member function can be called on every port:
`is_present()` returns within the recursion budget and no bank pointer dangles. -/
def well_formed {T : Type} (fuel : Nat) (st : State T) : Prop :=
  ∀ (p : Nat) (port : Port T), st.ports[p]? = some port →
    (is_present st fuel p).isSome = true ∧
      port.active_ports_.pointers_ok st.banks.length = true

/-- The second state has the ports of the first one, with the same inward
bindings, and bank pointers that are the old ones or nulled; the number of banks
is the same. -/
def same_shape {T : Type} (st st2 : State T) : Prop :=
  st2.banks.length = st.banks.length ∧ st2.ports.length = st.ports.length ∧
    ∀ (p : Nat) (port : Port T), st.ports[p]? = some port →
      ∃ port2, st2.ports[p]? = some port2 ∧
        port2.inward_binding_ = port.inward_binding_ ∧
        (port2.active_ports_ = port.active_ports_ ∨
          port2.active_ports_.active_ports_ = none)

end reactor

/-! ## Auxiliary facts about the state -/

namespace reactor

open multiport

theorem banks_set_bank {T : Type} (st : State T) (b : Nat) (k : PortBankCallBack) :
    (st.set_bank b k).banks = st.banks.set b k := rfl

theorem ports_set_bank {T : Type} (st : State T) (b : Nat) (k : PortBankCallBack) :
    (st.set_bank b k).ports = st.ports := rfl

theorem banks_set_port {T : Type} (st : State T) (p : Nat) (port : Port T) :
    (st.set_port p port).banks = st.banks := rfl

theorem ports_set_port {T : Type} (st : State T) (p : Nat) (port : Port T) :
    (st.set_port p port).ports = st.ports.set p port := rfl

theorem set_bank_set_bank {T : Type} (st : State T) (b : Nat) (k k2 : PortBankCallBack) :
    (st.set_bank b k).set_bank b k2 = st.set_bank b k2 := by
  simp [State.set_bank]

theorem list_set_same {α : Type} (l : List α) (i : Nat) (a : α) (h : l[i]? = some a) :
    l.set i a = l := by
  apply List.ext_getElem?
  intro j
  rw [List.getElem?_set]
  by_cases hij : i = j
  · subst hij
    have hlt : i < l.length := (List.getElem?_eq_some.1 h).1
    simp [hlt, h]
  · simp [hij]

theorem set_bank_same {T : Type} (st : State T) (b : Nat) (k : PortBankCallBack)
    (h : st.banks[b]? = some k) : st.set_bank b k = st := by
  cases st with
  | mk ports banks =>
    simp only [State.set_bank, State.mk.injEq, true_and]
    simp only at h
    exact list_set_same banks b k h

theorem bank_set_bank_self {T : Type} (st : State T) (b : Nat) (k k2 : PortBankCallBack)
    (h : st.banks[b]? = some k) : (st.set_bank b k2).banks[b]? = some k2 := by
  have hlt : b < st.banks.length := by
    rcases List.getElem?_eq_some.1 h with ⟨hb, _⟩
    exact hb
  simp [State.set_bank, List.getElem?_set, hlt]

theorem update_bank_of_bank {T : Type} (st : State T) (b : Nat) (k : PortBankCallBack)
    (f : PortBankCallBack → PortBankCallBack) (h : st.banks[b]? = some k) :
    st.update_bank b f = some (st.set_bank b (f k)) := by
  simp [State.update_bank, h]

/-- The presence test reads the ports only. -/
theorem is_present_of_ports {T : Type} (st st2 : State T) (h : st2.ports = st.ports) :
    ∀ (fuel p : Nat), is_present st2 fuel p = is_present st fuel p := by
  intro fuel
  induction fuel with
  | zero => intro p; rfl
  | succ n ih =>
    intro p
    simp only [is_present, h, ih]

/-- What `activate()` does on an absent port that is attached to the bank at
`b` while that bank is in the `Callback` strategy. -/
theorem activate_attached {T : Type} (fuel : Nat) (st : State T) (p b : Nat)
    (port : Port T) (bank : PortBankCallBack)
    (hp : st.ports[p]? = some port) (hpres : is_present st fuel p = some false)
    (ha : port.active_ports_ = get_active_ports b) (hb : st.banks[b]? = some bank)
    (hs : bank.strategy_ = Strategy.Callback) :
    activate fuel st p = some (
      if bank.size_ ≥ bank.active_ports_.capacity then
        (Completion.thrown "setting to much ports",
          st.set_bank b { bank with size_ := (bank.size_ + 1) % size_t_range })
      else
        (Completion.returned true,
          st.set_bank b { bank with
            size_ := (bank.size_ + 1) % size_t_range
            strategy_ :=
              if (bank.size_ * 100) % size_t_range / bank.active_ports_.capacity > 20 then
                Strategy.Linear else Strategy.Callback
            active_ports_ := bank.active_ports_.store bank.size_ port.index_ })) := by
  simp only [activate, hp, hpres, ha, get_active_ports, hb, hs, if_true,
    update_bank_of_bank st b bank _ hb]
  rw [bank_set_bank_self st b bank _ hb]
  simp only
  by_cases hcap : bank.size_ ≥ bank.active_ports_.capacity
  · simp [hcap]
  · simp only [hcap, if_false]
    by_cases hthr : (bank.size_ * 100) % size_t_range / bank.active_ports_.capacity > 20
    · simp only [hthr, if_true]
      rw [update_bank_of_bank _ b _ _ (bank_set_bank_self st b bank _ hb)]
      simp only [set_bank_set_bank]
      rw [update_bank_of_bank _ b _ _ (bank_set_bank_self st b bank _ hb)]
      simp only [set_bank_set_bank]
    · simp only [hthr, if_false]
      rw [update_bank_of_bank _ b _ _ (bank_set_bank_self st b bank _ hb)]
      simp only [set_bank_set_bank, hs]

end reactor

namespace reactor

open multiport

theorem index_of_set_bank {T : Type} (st : State T) (b : Nat) (k : PortBankCallBack) :
    index_of (st.set_bank b k) = index_of st := by
  funext p
  simp [index_of, ports_set_bank]

theorem attached_absent_iff {T : Type} (fuel : Nat) (st : State T) (b p : Nat) :
    attached_absent fuel st b p ↔
      ∃ port, st.ports[p]? = some port ∧ port.active_ports_ = get_active_ports b ∧
        is_present st fuel p = some false := by
  unfold attached_absent
  cases h : st.ports[p]? with
  | none => simp
  | some port => simp

/-- A run of activations that stays below the capacity and below the threshold:
every call returns true, the indices are stored in successive slots and the bank
stays in the `Callback` strategy. -/
theorem activate_each_sparse {T : Type} (fuel b : Nat) :
    ∀ (ps : List Nat) (st : State T) (bank : PortBankCallBack),
      st.banks[b]? = some bank → bank.strategy_ = Strategy.Callback →
      (∀ p ∈ ps, attached_absent fuel st b p) →
      (∀ s, bank.size_ ≤ s → s < bank.size_ + ps.length →
        s < bank.active_ports_.capacity ∧ s + 1 < size_t_range ∧
          s * 100 % size_t_range / bank.active_ports_.capacity ≤ 20) →
      activate_each fuel st ps = some (Completion.returned (List.replicate ps.length true),
        st.set_bank b { bank with
          size_ := bank.size_ + ps.length
          active_ports_ := { bank.active_ports_ with
            storage := store_each bank.active_ports_.storage bank.size_
              (ps.map (index_of st)) } }) := by
  intro ps
  induction ps with
  | nil =>
    intro st bank hb _ _ _
    simp only [activate_each, List.length_nil, List.replicate, List.map_nil, store_each,
      Nat.add_zero]
    rw [set_bank_same st b _ hb]
  | cons p rest ih =>
    intro st bank hb hs hps hsafe
    obtain ⟨port, hp, ha, hpres⟩ :=
      (attached_absent_iff fuel st b p).1 (hps p (List.mem_cons_self p rest))
    obtain ⟨hcap, hrange, hthr⟩ := hsafe bank.size_ (Nat.le_refl _)
      (by simp only [List.length_cons]; omega)
    have hmod : (bank.size_ + 1) % size_t_range = bank.size_ + 1 := Nat.mod_eq_of_lt hrange
    have hstep := activate_attached fuel st p b port bank hp hpres ha hb hs
    rw [if_neg (by omega), if_neg (by omega), hmod] at hstep
    have hb1 := bank_set_bank_self st b bank
      { bank with
        size_ := bank.size_ + 1
        strategy_ := Strategy.Callback
        active_ports_ := bank.active_ports_.store bank.size_ port.index_ } hb
    have hrest := ih _ _ hb1 rfl
      (fun q hq => by
        have h := hps q (List.mem_cons_of_mem p hq)
        unfold attached_absent at h ⊢
        rw [ports_set_bank, is_present_of_ports st _ (ports_set_bank st b _)]
        exact h)
      (fun s h1 h2 => by
        have h := hsafe s (by simp only at h1; omega)
          (by simp only [List.length_cons]; simp only at h2; omega)
        simpa [SizeVector.store, SizeVector.capacity] using h)
    have hidx : index_of st p = port.index_ := by simp [index_of, hp]
    rw [index_of_set_bank] at hrest
    simp only [SizeVector.store, set_bank_set_bank] at hrest
    simp only [activate_each, hstep, hrest, List.length_cons,
      List.replicate_succ, List.map_cons, store_each, SizeVector.store, hidx, hs]
    congr 4
    omega

end reactor

/-! ## The vector primitives -/

namespace multiport

theorem iota_length (v : List Nat) : ∀ value, (iota v value).length = v.length := by
  induction v with
  | nil => intro value; rfl
  | cons x rest ih => intro value; simp [iota, ih]

theorem iota_replicate (n : Nat) : ∀ value, iota (List.replicate n 0) value = List.range' value n := by
  induction n with
  | zero => intro value; rfl
  | succ k ih => intro value; simp [List.replicate_succ, iota, ih, List.range'_succ]

theorem copy_range_eq (storage : List Nat) :
    ∀ (n first : Nat), first + n ≤ storage.length →
      copy_range storage first n = some ((storage.drop first).take n) := by
  intro n
  induction n with
  | zero => intro first _; simp [copy_range]
  | succ k ih =>
    intro first h
    have hlt : first < storage.length := by omega
    have hrest := ih (first + 1) (by omega)
    rw [copy_range, List.getElem?_eq_getElem hlt, hrest]
    simp only
    rw [List.drop_eq_getElem_cons hlt, List.take_succ_cons]

theorem copy_range_zero (storage : List Nat) (n : Nat) (h : n ≤ storage.length) :
    copy_range storage 0 n = some (storage.take n) := by
  have := copy_range_eq storage n 0 (by omega)
  simpa using this

end multiport

namespace reactor

open multiport

theorem take_set_same (l : List Nat) (s x : Nat) : (l.set s x).take s = l.take s := by
  apply List.ext_getElem?
  intro i
  rw [List.getElem?_take, List.getElem?_take]
  split
  · next h => rw [List.getElem?_set_ne (by omega)]
  · rfl

theorem store_each_length : ∀ (xs storage : List Nat) (s : Nat),
    (store_each storage s xs).length = storage.length := by
  intro xs
  induction xs with
  | nil => intro storage s; rfl
  | cons x rest ih => intro storage s; simp [store_each, ih]

theorem store_each_take : ∀ (xs storage : List Nat) (s : Nat),
    (store_each storage s xs).take s = storage.take s := by
  intro xs
  induction xs with
  | nil => intro storage s; rfl
  | cons x rest ih =>
    intro storage s
    rw [store_each]
    have h := ih (storage.set s x) (s + 1)
    have h2 := congrArg (List.take s) h
    rw [List.take_take, List.take_take, Nat.min_eq_left (Nat.le_succ s)] at h2
    rw [h2, take_set_same]

theorem store_each_window : ∀ (xs storage : List Nat) (s : Nat),
    s + xs.length ≤ storage.length →
      (store_each storage s xs).take (s + xs.length) = storage.take s ++ xs := by
  intro xs
  induction xs with
  | nil => intro storage s _; simp [store_each]
  | cons x rest ih =>
    intro storage s h
    simp only [List.length_cons] at h
    rw [store_each, List.length_cons]
    have hrest := ih (storage.set s x) (s + 1) (by simp only [List.length_set]; omega)
    rw [show s + (rest.length + 1) = s + 1 + rest.length by omega, hrest]
    have hlt : s < storage.length := by omega
    rw [List.take_succ, take_set_same]
    simp [hlt]

end reactor

/-! ## Activation in the sparse strategy -/

namespace reactor

open multiport

theorem size_t_range_eq : size_t_range = 18446744073709551616 := by
  norm_num [size_t_range]

theorem reserve_capacity (N : Nat) (hN : 0 < N) (h : 2 * N < size_t_range) :
    (PortBankCallBack.init.reserve N).active_ports_.capacity = 2 * N := by
  simp [PortBankCallBack.reserve, PortBankCallBack.init, SizeVector.reserve,
    SizeVector.capacity, Nat.mod_eq_of_lt h, hN]

/-- The sparse phase of a bank reserved for `N` ports, started from count 0. -/
theorem sparse_run_indices {T : Type} (N fuel b : Nat) (st : State T)
    (bank : PortBankCallBack) (ps : List Nat)
    (hN : 0 < N) (hN2 : N < 2 ^ 58)
    (hb : st.banks[b]? = some bank)
    (hcount : bank.size_ = 0) (hstrat : bank.strategy_ = Strategy.Callback)
    (hres : bank.active_ports_ = (PortBankCallBack.init.reserve N).active_ports_)
    (hps : ∀ p ∈ ps, attached_absent fuel st b p)
    (hk : (ps.length - 1) * 100 / (2 * N) ≤ 20) :
    ∃ st2 bank2,
      activate_each fuel st ps
          = some (Completion.returned (List.replicate ps.length true), st2) ∧
        st2.banks[b]? = some bank2 ∧
        bank2.active_ports_indices = some (ps.map (index_of st)) ∧
        bank2.strategy_ = Strategy.Callback := by
  have hr := size_t_range_eq
  have hcap : bank.active_ports_.capacity = 2 * N := by
    rw [hres]; exact reserve_capacity N hN (by omega)
  have hk2 : (ps.length - 1) * 100 < 21 * (2 * N) :=
    (Nat.div_lt_iff_lt_mul (by omega)).1 (by omega)
  have hrun := activate_each_sparse fuel b ps st bank hb hstrat hps (by
    intro s _ hs
    rw [hcount] at hs
    have hs100 : s * 100 < size_t_range := by omega
    refine ⟨by omega, by omega, ?_⟩
    rw [Nat.mod_eq_of_lt hs100, hcap]
    have : s * 100 / (2 * N) < 21 := (Nat.div_lt_iff_lt_mul (by omega)).2 (by omega)
    omega)
  refine ⟨_, _, hrun, bank_set_bank_self st b bank _ hb, ?_, hstrat⟩
  have hlen : ps.length ≤ bank.active_ports_.storage.length := by
    have : bank.active_ports_.storage.length = 2 * N := hcap
    omega
  have hwin := store_each_window (ps.map (index_of st)) bank.active_ports_.storage 0
    (by simpa using hlen)
  simp only [List.length_map, Nat.zero_add, List.take_zero, List.nil_append] at hwin
  simp only [PortBankCallBack.active_ports_indices, hstrat, hcount, Nat.zero_add]
  rw [if_neg (by decide), copy_range_zero _ _ (by rw [store_each_length]; exact hlen), hwin]

end reactor

namespace reactor

open multiport

/-- C1. Sparse activation: in a bank reserved for `N` ports that is in its
initial state (count 0, strategy `Callback`), activating any list of `k` absent
member ports with `(k - 1) * 100 / (2 * N) ≤ 20` returns true every time, after
which `active_ports_indices()` is exactly the list of the `index_` values of
those ports and the strategy is still `Callback`. -/
theorem sparse_activation_correct {T : Type} (N fuel b : Nat) (st : State T)
    (bank : PortBankCallBack) (ps : List Nat)
    (hN : 0 < N) (hN2 : N < 2 ^ 58)
    (hb : st.banks[b]? = some bank)
    (hcount : bank.size_ = 0) (hstrat : bank.strategy_ = Strategy.Callback)
    (hres : bank.active_ports_ = (PortBankCallBack.init.reserve N).active_ports_)
    (hps : ∀ p ∈ ps, attached_absent fuel st b p)
    (hk : (ps.length - 1) * 100 / (2 * N) ≤ 20) :
    ∃ st2 bank2,
      activate_each fuel st ps
          = some (Completion.returned (List.replicate ps.length true), st2) ∧
        st2.banks[b]? = some bank2 ∧
        bank2.active_ports_indices = some (ps.map (index_of st)) ∧
        bank2.strategy_ = Strategy.Callback :=
  sparse_run_indices N fuel b st bank ps hN hN2 hb hcount hstrat hres hps hk

/-- Witness for C1: fifteen ports of the bank of 100. -/
theorem sparse_activation_correct_witness :
    ∃ st2 bank2,
      activate_each 1 bank100 (List.range 15)
          = some (Completion.returned (List.replicate (List.range 15).length true), st2) ∧
        st2.banks[0]? = some bank2 ∧
        bank2.active_ports_indices = some ((List.range 15).map (index_of bank100)) ∧
        bank2.strategy_ = Strategy.Callback :=
  sparse_activation_correct 100 1 0 bank100
    { (PortBankCallBack.init.reserve 100) with data_ := List.range 100 } (List.range 15)
    (by decide) (by norm_num) rfl rfl rfl rfl (by decide) (by decide)

end reactor

/-! ## The switch to the dense strategy -/

namespace reactor

open multiport

/-- In the `Linear` strategy `activate()` returns false and changes nothing. -/
theorem activate_linear {T : Type} (fuel : Nat) (st : State T) (p b : Nat)
    (port : Port T) (bank : PortBankCallBack) (pres : Bool)
    (hp : st.ports[p]? = some port) (hpres : is_present st fuel p = some pres)
    (ha : port.active_ports_ = get_active_ports b) (hb : st.banks[b]? = some bank)
    (hs : bank.strategy_ = Strategy.Linear) :
    activate fuel st p = some (Completion.returned false, st) := by
  cases pres <;> simp [activate, hp, hpres, ha, get_active_ports, hb, hs]

theorem activate_each_linear {T : Type} (fuel b : Nat) (st : State T)
    (bank : PortBankCallBack) (hb : st.banks[b]? = some bank)
    (hs : bank.strategy_ = Strategy.Linear) :
    ∀ (ps : List Nat), (∀ p ∈ ps, attached_absent fuel st b p) →
      activate_each fuel st ps
        = some (Completion.returned (List.replicate ps.length false), st) := by
  intro ps
  induction ps with
  | nil => intro _; rfl
  | cons p rest ih =>
    intro hps
    obtain ⟨port, hp, ha, hpres⟩ :=
      (attached_absent_iff fuel st b p).1 (hps p (List.mem_cons_self p rest))
    have hrest := ih (fun q hq => hps q (List.mem_cons_of_mem p hq))
    simp [activate_each, activate_linear fuel st p b port bank false hp hpres ha hb hs, hrest,
      List.replicate_succ]

theorem activate_each_append {T : Type} (fuel : Nat) (ys : List Nat) :
    ∀ (xs : List Nat) (st st1 : State T) (rs : List Bool),
      activate_each fuel st xs = some (Completion.returned rs, st1) →
      activate_each fuel st (xs ++ ys) =
        match activate_each fuel st1 ys with
        | none => none
        | some (Completion.thrown what, st2) => some (Completion.thrown what, st2)
        | some (Completion.returned rs2, st2) => some (Completion.returned (rs ++ rs2), st2) := by
  intro xs
  induction xs with
  | nil =>
    intro st st1 rs h
    simp only [activate_each, Option.some.injEq, Prod.mk.injEq, Completion.returned.injEq] at h
    obtain ⟨h1, h2⟩ := h
    subst h1 h2
    simp only [List.nil_append]
    cases hys : activate_each fuel st ys with
    | none => rfl
    | some r =>
      obtain ⟨c, st2⟩ := r
      cases c <;> rfl
  | cons x rest ih =>
    intro st st1 rs h
    rw [activate_each] at h
    rw [List.cons_append, activate_each]
    cases hx : activate fuel st x with
    | none => rw [hx] at h; simp at h
    | some r =>
      obtain ⟨c, sta⟩ := r
      rw [hx] at h
      cases c with
      | thrown w => simp at h
      | returned v =>
        simp only at h ⊢
        cases hr : activate_each fuel sta rest with
        | none => rw [hr] at h; simp at h
        | some r2 =>
          obtain ⟨c2, stb⟩ := r2
          rw [hr] at h
          cases c2 with
          | thrown w => simp at h
          | returned vs =>
            simp only [Option.some.injEq, Prod.mk.injEq, Completion.returned.injEq] at h
            obtain ⟨h1, h2⟩ := h
            subst h1 h2
            rw [ih sta stb vs hr]
            cases hys : activate_each fuel stb ys with
            | none => rfl
            | some r3 =>
              obtain ⟨c3, stc⟩ := r3
              cases c3 <;> simp

end reactor

namespace reactor

open multiport

/-- A run that crosses the threshold: when slot `t` is the first one with
`t * 100 / capacity > 20`, the activation that obtains slot `t` switches the bank
to `Linear`, and all later activations of the run return false. -/
theorem activate_each_switch {T : Type} (fuel b t : Nat) (st : State T)
    (bank : PortBankCallBack) (ps : List Nat)
    (hb : st.banks[b]? = some bank) (hcount : bank.size_ = 0)
    (hs : bank.strategy_ = Strategy.Callback)
    (hps : ∀ p ∈ ps, attached_absent fuel st b p)
    (hcap : t < bank.active_ports_.capacity) (hr : t * 100 < size_t_range)
    (hbelow : ∀ s, s < t → s * 100 / bank.active_ports_.capacity ≤ 20)
    (hat : t * 100 / bank.active_ports_.capacity > 20)
    (hk : t < ps.length) :
    ∃ st2 bank2,
      activate_each fuel st ps = some (Completion.returned
          (List.replicate t true ++ true :: List.replicate (ps.length - (t + 1)) false), st2) ∧
        st2.banks[b]? = some bank2 ∧ bank2.strategy_ = Strategy.Linear ∧
        bank2.data_ = bank.data_ ∧ bank2.size_ = t + 1 := by
  have hrange := size_t_range_eq
  have hsplit : ps = ps.take t ++ ps.drop t := (List.take_append_drop t ps).symm
  have hdrop : ps.drop t = ps[t] :: ps.drop (t + 1) := List.drop_eq_getElem_cons hk
  have hlen : (ps.take t).length = t := by
    rw [List.length_take]; omega
  have hps1 : ∀ p ∈ ps.take t, attached_absent fuel st b p :=
    fun p hp => hps p (List.mem_of_mem_take hp)
  have hrun := activate_each_sparse fuel b (ps.take t) st bank hb hs hps1 (by
    intro s _ h2
    rw [hcount, hlen, Nat.zero_add] at h2
    have hs100 : s * 100 < size_t_range := by omega
    refine ⟨by omega, by omega, ?_⟩
    rw [Nat.mod_eq_of_lt hs100]
    exact hbelow s h2)
  rw [hlen, hcount, Nat.zero_add] at hrun
  obtain ⟨port, hp, ha, hpres⟩ :=
    (attached_absent_iff fuel st b ps[t]).1 (hps _ (List.getElem_mem hk))
  have hb1 := bank_set_bank_self st b bank
    { bank with
      size_ := t
      active_ports_ := { bank.active_ports_ with
        storage := store_each bank.active_ports_.storage 0
          ((ps.take t).map (index_of st)) } } hb
  have hstep := activate_attached fuel _ ps[t] b port _
    (by rw [ports_set_bank]; exact hp)
    (by rw [is_present_of_ports st _ (ports_set_bank st b _)]; exact hpres) ha hb1 hs
  simp only [SizeVector.capacity, store_each_length] at hstep
  rw [if_neg (by simp only [SizeVector.capacity] at hcap; omega),
    Nat.mod_eq_of_lt hr, if_pos (by simpa [SizeVector.capacity] using hat),
    set_bank_set_bank, Nat.mod_eq_of_lt (by omega)] at hstep
  have hb2 := bank_set_bank_self st b bank
    { bank with
      size_ := t + 1
      strategy_ := Strategy.Linear
      active_ports_ := SizeVector.store { bank.active_ports_ with
        storage := store_each bank.active_ports_.storage 0
          ((ps.take t).map (index_of st)) } t port.index_ } hb
  have hps3 : ∀ p ∈ ps.drop (t + 1), attached_absent fuel
      (st.set_bank b
        { bank with
          size_ := t + 1
          strategy_ := Strategy.Linear
          active_ports_ := SizeVector.store { bank.active_ports_ with
            storage := store_each bank.active_ports_.storage 0
              ((ps.take t).map (index_of st)) } t port.index_ }) b p := by
    intro q hq
    have h := hps q (List.mem_of_mem_drop hq)
    unfold attached_absent at h ⊢
    rw [ports_set_bank, is_present_of_ports st _ (ports_set_bank st b _)]
    exact h
  have htail := activate_each_linear fuel b _ _ hb2 rfl (ps.drop (t + 1)) hps3
  refine ⟨_, _, ?_, hb2, rfl, rfl, rfl⟩
  conv_lhs => rw [hsplit]
  rw [activate_each_append fuel (ps.drop t) (ps.take t) st _ _ hrun, hdrop, activate_each,
    hstep]
  simp only [htail, List.length_drop]

end reactor

/-! ## Adaptive switch for a bank of 100 ports -/

namespace reactor

open multiport

/-- C2, counterexample: after 25 distinct absent ports of the bank of 100 have
been activated the strategy is still `Callback` and `active_ports_indices()`
returns the 25 activated indices, not the range `[0, 100)`. -/
theorem adaptive_switch_counterexample :
    ∃ st2 bank2,
      activate_each 1 bank100 (List.range 25)
          = some (Completion.returned (List.replicate 25 true), st2) ∧
        st2.banks[0]? = some bank2 ∧
        bank2.strategy_ ≠ Strategy.Linear ∧
        bank2.active_ports_indices = some (List.range 25) ∧
        bank2.active_ports_indices ≠ some (List.range 100) := by
  obtain ⟨st2, bank2, h1, h2, h3, h4⟩ := sparse_run_indices 100 1 0 bank100
    { (PortBankCallBack.init.reserve 100) with data_ := List.range 100 } (List.range 25)
    (by decide) (by norm_num) rfl rfl rfl rfl (by decide) (by decide)
  have hidx : (List.range 25).map (index_of bank100) = List.range 25 := by decide
  rw [hidx] at h3
  refine ⟨st2, bank2, h1, h2, ?_, h3, ?_⟩
  · rw [h4]; decide
  · rw [h3]; decide

/-- C2, amended: in a bank of 100 ports set up with `reserve(100)` (capacity 200)
and started from its initial state, a run of `k` activations of absent member
ports leaves the bank in `Callback` with exactly the activated indices when
`k ≤ 42`, and in `Linear` with `active_ports_indices()` equal to `[0, 100)` when
`k ≥ 43`: the switch happens at slot 42, where `42 * 100 / 200 = 21 > 20`. -/
theorem adaptive_switch_at_43 {T : Type} (fuel b : Nat) (st : State T)
    (bank : PortBankCallBack) (ps : List Nat)
    (hb : st.banks[b]? = some bank)
    (hcount : bank.size_ = 0) (hstrat : bank.strategy_ = Strategy.Callback)
    (hres : bank.active_ports_ = (PortBankCallBack.init.reserve 100).active_ports_)
    (hdata : bank.data_.length = 100)
    (hps : ∀ p ∈ ps, attached_absent fuel st b p) :
    ∃ rs st2 bank2,
      activate_each fuel st ps = some (Completion.returned rs, st2) ∧
        st2.banks[b]? = some bank2 ∧
        (ps.length ≤ 42 → bank2.strategy_ = Strategy.Callback ∧
          bank2.active_ports_indices = some (ps.map (index_of st))) ∧
        (43 ≤ ps.length → bank2.strategy_ = Strategy.Linear ∧
          bank2.active_ports_indices = some (List.range 100)) := by
  have hrange := size_t_range_eq
  have hcap : bank.active_ports_.capacity = 200 := by
    rw [hres]; exact reserve_capacity 100 (by decide) (by omega)
  by_cases hk : ps.length ≤ 42
  · obtain ⟨st2, bank2, h1, h2, h3, h4⟩ := sparse_run_indices 100 fuel b st bank ps
      (by decide) (by norm_num) hb hcount hstrat hres hps (by omega)
    exact ⟨_, st2, bank2, h1, h2, fun _ => ⟨h4, h3⟩, fun h => by omega⟩
  · obtain ⟨st2, bank2, h1, h2, h3, h4, _⟩ := activate_each_switch fuel b 42 st bank ps
      hb hcount hstrat hps (by omega) (by omega)
      (by intro s hs; rw [hcap]; omega) (by rw [hcap]; decide) (by omega)
    refine ⟨_, st2, bank2, h1, h2, fun h => by omega, fun _ => ⟨h3, ?_⟩⟩
    simp only [PortBankCallBack.active_ports_indices, h3, if_true, h4, hdata,
      iota_replicate, List.range_eq_range']

/-- Witness for C2 (amended): 43 ports of the bank of 100. -/
theorem adaptive_switch_at_43_witness :
    ∃ rs st2 bank2,
      activate_each 1 bank100 (List.range 43) = some (Completion.returned rs, st2) ∧
        st2.banks[0]? = some bank2 ∧
        ((List.range 43).length ≤ 42 → bank2.strategy_ = Strategy.Callback ∧
          bank2.active_ports_indices = some ((List.range 43).map (index_of bank100))) ∧
        (43 ≤ (List.range 43).length → bank2.strategy_ = Strategy.Linear ∧
          bank2.active_ports_indices = some (List.range 100)) :=
  adaptive_switch_at_43 1 0 bank100
    { (PortBankCallBack.init.reserve 100) with data_ := List.range 100 } (List.range 43)
    rfl rfl rfl rfl (by decide) (by decide)

end reactor

/-! ## The threshold rule -/

namespace reactor

open multiport

/-- C3, counterexample: in the bank of capacity 100, after 20 activations the
next one obtains slot 20 and stores its index there, `(20 + 1) * 100 / 100 > 20`
holds, yet the strategy stays `Callback`. -/
theorem threshold_rule_counterexample :
    ∃ st1 bank1 st2 bank2,
      activate_each 1 bank50 (List.range 20)
          = some (Completion.returned (List.replicate 20 true), st1) ∧
        st1.banks[0]? = some bank1 ∧ bank1.strategy_ = Strategy.Callback ∧
        bank1.size_ = 20 ∧ bank1.active_ports_.capacity = 100 ∧
        activate 1 st1 20 = some (Completion.returned true, st2) ∧
        st2.banks[0]? = some bank2 ∧
        bank2.active_ports_.storage[20]? = some 20 ∧
        ¬ (bank2.strategy_ = Strategy.Linear ↔ (20 + 1) * 100 / 100 > 20) := by
  refine ⟨_, _, _, _, rfl, rfl, rfl, rfl, rfl, rfl, rfl, rfl, ?_⟩
  decide

/-- C3, amended: for every bank in the `Callback` strategy and every activation
of an absent member port that obtains slot `s` below the capacity `C`,
`activate()` returns true, has stored the port's index at `active[s]`, and has
switched the strategy to `Linear` if and only if `(s * 100 mod 2 ^ 64) / C > 20`,
which is `s * 100 / C > 20` whenever `s * 100 < 2 ^ 64`. -/
theorem threshold_rule {T : Type} (fuel : Nat) (st : State T) (p b : Nat)
    (port : Port T) (bank : PortBankCallBack)
    (hp : st.ports[p]? = some port) (hpres : is_present st fuel p = some false)
    (ha : port.active_ports_ = get_active_ports b) (hb : st.banks[b]? = some bank)
    (hs : bank.strategy_ = Strategy.Callback)
    (hslot : bank.size_ < bank.active_ports_.capacity) :
    ∃ st2 bank2,
      activate fuel st p = some (Completion.returned true, st2) ∧
        st2.banks[b]? = some bank2 ∧
        bank2.active_ports_.storage[bank.size_]? = some port.index_ ∧
        (bank2.strategy_ = Strategy.Linear ↔
          bank.size_ * 100 % size_t_range / bank.active_ports_.capacity > 20) ∧
        (bank.size_ * 100 < size_t_range →
          (bank2.strategy_ = Strategy.Linear ↔
            bank.size_ * 100 / bank.active_ports_.capacity > 20)) := by
  have hstep := activate_attached fuel st p b port bank hp hpres ha hb hs
  rw [if_neg (by omega)] at hstep
  have hiff : (if bank.size_ * 100 % size_t_range / bank.active_ports_.capacity > 20 then
        Strategy.Linear else Strategy.Callback) = Strategy.Linear ↔
      bank.size_ * 100 % size_t_range / bank.active_ports_.capacity > 20 := by
    by_cases h : bank.size_ * 100 % size_t_range / bank.active_ports_.capacity > 20
    · simp [h]
    · simp [h]
  refine ⟨_, _, hstep, bank_set_bank_self st b bank _ hb, ?_, hiff, ?_⟩
  · simp only [SizeVector.store]
    exact List.getElem?_set_self hslot
  · intro hmul
    have hmod : bank.size_ * 100 % size_t_range = bank.size_ * 100 := Nat.mod_eq_of_lt hmul
    simp only [hmod] at hiff ⊢
    exact hiff

/-- Witness for C3 (amended): the first activation in the bank of capacity 100. -/
theorem threshold_rule_witness :
    ∃ st2 bank2,
      activate 1 bank50 7 = some (Completion.returned true, st2) ∧
        st2.banks[0]? = some bank2 ∧
        bank2.active_ports_.storage[0]? = some 7 ∧
        (bank2.strategy_ = Strategy.Linear ↔ 0 * 100 % size_t_range / 100 > 20) ∧
        (0 * 100 < size_t_range → (bank2.strategy_ = Strategy.Linear ↔ 0 * 100 / 100 > 20)) :=
  threshold_rule 1 bank50 7 0 { active_ports_ := get_active_ports 0, index_ := 7 }
    { (PortBankCallBack.init.reserve 50) with data_ := List.range 50 }
    rfl rfl rfl rfl rfl (by decide)

end reactor

/-! ## `active_ports_indices()` against its reference definition -/

namespace multiport

/-- C4, counterexample: the bank that was never reserved, after the first
`activate()` left by its exception: the strategy is `Callback`, the count is 1
and the capacity 0, so the read of `active[0..count)` leaves the allocation and
`active_ports_indices()` has no result, in particular not the reference list. -/
theorem active_ports_indices_counterexample :
    ∃ st2 bank2,
      reactor.activate 1 reactor.bank_unreserved 0
          = some (Completion.thrown "setting to much ports", st2) ∧
        st2.banks[0]? = some bank2 ∧ bank2.strategy_ = Strategy.Callback ∧
        bank2.size_ = 1 ∧ bank2.active_ports_.capacity = 0 ∧
        bank2.active_ports_indices = none ∧
        bank2.active_ports_indices ≠ some (active_indices_reference bank2) :=
  ⟨_, _, rfl, rfl, rfl, rfl, rfl, rfl, by decide⟩

/-- C4, amended: for every bank state in which the count does not exceed the
capacity of the active-index sequence while the strategy is `Callback`,
`active_ports_indices()` returns the reference list: `0, 1, ..., data_.size() - 1`
in the `Linear` strategy, and the first `count` entries of the active-index
sequence, in stored order, in the `Callback` strategy. -/
theorem active_ports_indices_reference (bank : PortBankCallBack)
    (hcount : bank.strategy_ = Strategy.Callback →
      bank.size_ ≤ bank.active_ports_.capacity) :
    bank.active_ports_indices = some (active_indices_reference bank) := by
  unfold PortBankCallBack.active_ports_indices active_indices_reference
  cases hstrat : bank.strategy_ with
  | Linear =>
    simp only [if_true, iota_replicate, List.range_eq_range']
  | Callback =>
    rw [if_neg (by decide)]
    exact copy_range_zero _ _ (hcount hstrat)

/-- Witness for C4: a sparse bank holding three active indices. -/
theorem active_ports_indices_reference_witness :
    PortBankCallBack.active_ports_indices
        { data_ := [0, 1, 2, 3], active_ports_ := { storage := [3, 1, 2, 0, 0, 0, 0, 0] },
          size_ := 3, strategy_ := Strategy.Callback }
      = some [3, 1, 2] :=
  active_ports_indices_reference
    { data_ := [0, 1, 2, 3], active_ports_ := { storage := [3, 1, 2, 0, 0, 0, 0, 0] },
      size_ := 3, strategy_ := Strategy.Callback } (by decide)

end multiport

/-! ## Presence along inward bindings -/

namespace reactor

open multiport

theorem is_present_chain {T : Type} (st : State T) (r : Nat) (root : Port T)
    (hroot : st.ports[r]? = some root) :
    ∀ (n p fuel : Nat), chain_root st n p = some r → n < fuel →
      is_present st fuel p = some root.present_ := by
  intro n
  induction n with
  | zero =>
    intro p fuel hchain hfuel
    obtain ⟨k, rfl⟩ : ∃ k, fuel = k + 1 := ⟨fuel - 1, by omega⟩
    simp only [chain_root] at hchain
    simp only [is_present]
    cases hp : st.ports[p]? with
    | none => rw [hp] at hchain; simp at hchain
    | some port =>
      rw [hp] at hchain
      simp only at hchain ⊢
      by_cases hnone : port.inward_binding_ = none
      · rw [if_pos hnone] at hchain
        have hpr : p = r := Option.some.inj hchain
        subst hpr
        rw [hp] at hroot
        have : port = root := Option.some.inj hroot
        subst this
        rw [hnone]
      · rw [if_neg hnone] at hchain
        simp at hchain
  | succ m ih =>
    intro p fuel hchain hfuel
    obtain ⟨k, rfl⟩ : ∃ k, fuel = k + 1 := ⟨fuel - 1, by omega⟩
    simp only [chain_root] at hchain
    simp only [is_present]
    cases hp : st.ports[p]? with
    | none => rw [hp] at hchain; simp at hchain
    | some port =>
      rw [hp] at hchain
      simp only at hchain ⊢
      cases hin : port.inward_binding_ with
      | none => rw [hin] at hchain; simp at hchain
      | some u =>
        rw [hin] at hchain
        simp only at hchain ⊢
        exact ih u k hchain (by omega)

theorem chain_root_upstream {T : Type} (st : State T) (r : Nat) :
    ∀ (i n p q : Nat), chain_root st n p = some r → i ≤ n → upstream st i p = some q →
      chain_root st (n - i) q = some r := by
  intro i
  induction i with
  | zero =>
    intro n p q hchain _ hup
    simp only [upstream, Option.some.injEq] at hup
    subst hup
    exact hchain
  | succ j ih =>
    intro n p q hchain hle hup
    obtain ⟨m, rfl⟩ : ∃ m, n = m + 1 := ⟨n - 1, by omega⟩
    simp only [chain_root] at hchain
    simp only [upstream] at hup
    cases hp : st.ports[p]? with
    | none => rw [hp] at hchain; simp at hchain
    | some port =>
      rw [hp] at hchain hup
      simp only at hchain hup
      cases hin : port.inward_binding_ with
      | none => rw [hin] at hchain; simp at hchain
      | some u =>
        rw [hin] at hchain hup
        simp only at hchain hup
        have h := ih m u q hchain (by omega) hup
        rw [show m + 1 - (j + 1) = m - j by omega]
        exact h

/-- C5. Presence propagation: in a chain of inward bindings of depth `n` that
leads from a port `p` to a root `r` without inward binding, `is_present()` on
every port `q` of the chain (the port `i ≤ n` steps above `p`) returns, with any
recursion budget above `n`, the local `present_` flag of `r`, whatever the local
flags of the other ports; in particular it is true once `r` is present. -/
theorem presence_propagation {T : Type} (st : State T) (n p r fuel i q : Nat)
    (root : Port T)
    (hchain : chain_root st n p = some r) (hroot : st.ports[r]? = some root)
    (hfuel : n < fuel) (hi : i ≤ n) (hq : upstream st i p = some q) :
    is_present st fuel q = some root.present_ ∧
      (root.present_ = true → is_present st fuel q = some true) := by
  have h := is_present_chain st r root hroot (n - i) q fuel
    (chain_root_upstream st r i n p q hchain hi hq) (by omega)
  exact ⟨h, fun hset => by rw [h, hset]⟩

/-- Witness for C5: the port two steps above the far end of a chain of depth 5. -/
theorem presence_propagation_witness :
    is_present chain6 6 3 = some true ∧
      (true = true → is_present chain6 6 3 = some true) :=
  presence_propagation chain6 5 5 0 6 2 3 { present_ := true, value_ptr_ := some 7 }
    (by decide) rfl (by decide) (by decide) (by decide)

end reactor

/-! ## Clearing a port -/

namespace reactor

open multiport

theorem port_set_port_self {T : Type} (st : State T) (p : Nat) (port port2 : Port T)
    (h : st.ports[p]? = some port) : (st.set_port p port2).ports[p]? = some port2 := by
  have hlt : p < st.ports.length := (List.getElem?_eq_some.1 h).1
  simp [State.set_port, List.getElem?_set, hlt]

theorem set_port_set_port {T : Type} (st : State T) (p : Nat) (k k2 : Port T) :
    (st.set_port p k).set_port p k2 = st.set_port p k2 := by
  simp [State.set_port]

/-- `clear()` returns whenever the bank pointers of the port are valid, and the
ports afterwards are the old ones with the local flag of `p` reset. -/
theorem clear_ports {T : Type} (st : State T) (p : Nat) (port : Port T)
    (hp : st.ports[p]? = some port)
    (hvalid : port.active_ports_.valid_in st.banks.length = true) :
    ∃ st2, clear st p = some st2 ∧
      st2.ports = st.ports.set p { port with present_ := false } := by
  unfold clear
  rw [hp]
  simp only
  cases ha : port.active_ports_.active_ports_ with
  | none => exact ⟨_, rfl, rfl⟩
  | some a =>
    simp only [LockedPortList.valid_in, ha, Bool.and_eq_true, decide_eq_true_eq] at hvalid
    obtain ⟨hlt, hz⟩ := hvalid
    cases hsz : port.active_ports_.size_ with
    | none => rw [hsz] at hz; simp at hz
    | some z =>
      rw [hsz] at hz
      simp only [decide_eq_true_eq] at hz
      simp only [banks_set_port]
      rw [List.getElem?_eq_getElem hz]
      simp only
      by_cases hzero : st.banks[z].size_ = 0
      · rw [if_pos hzero]
        exact ⟨_, rfl, rfl⟩
      · rw [if_neg hzero]
        simp only [State.update_bank, banks_set_port, List.getElem?_eq_getElem hz,
          banks_set_bank]
        have hlt2 : a < (st.banks.set z { st.banks[z] with size_ := 0 }).length := by
          simpa using hlt
        rw [List.getElem?_eq_getElem hlt2]
        exact ⟨_, rfl, rfl⟩

/-- The effect of `clear()` on a port attached to the bank at `b`. -/
theorem clear_attached {T : Type} (st : State T) (p b : Nat) (port : Port T)
    (bank : PortBankCallBack)
    (hp : st.ports[p]? = some port) (ha : port.active_ports_ = get_active_ports b)
    (hb : st.banks[b]? = some bank) :
    clear st p = some ((st.set_port p { port with present_ := false }).set_bank b
      (if bank.size_ = 0 then bank
       else { bank with size_ := 0, active_ports_ := bank.active_ports_.clear })) := by
  have hb1 : (st.set_port p { port with present_ := false }).banks[b]? = some bank := hb
  have h1 : port.active_ports_.active_ports_ = some b := by rw [ha]; rfl
  have h2 : port.active_ports_.size_ = some b := by rw [ha]; rfl
  unfold clear
  simp only [hp, h1, h2, hb1]
  by_cases hzero : bank.size_ = 0
  · rw [if_pos hzero, if_pos hzero, set_bank_same _ b bank hb1]
  · rw [if_neg hzero, if_neg hzero, update_bank_of_bank _ b bank _ hb1]
    simp only
    rw [update_bank_of_bank _ b _ _ (bank_set_bank_self _ b bank _ hb1), set_bank_set_bank]

/-- Resetting the local flag of a port that has an inward binding does not change
what `is_present()` returns, on any port. -/
theorem is_present_set_bound {T : Type} (st : State T) (p : Nat) (port port2 : Port T)
    (hp : st.ports[p]? = some port) (hin : port.inward_binding_ ≠ none)
    (hsame : port2.inward_binding_ = port.inward_binding_) :
    ∀ (fuel q : Nat), is_present (st.set_port p port2) fuel q = is_present st fuel q := by
  intro fuel
  induction fuel with
  | zero => intro q; rfl
  | succ n ih =>
    intro q
    simp only [is_present]
    by_cases hq : q = p
    · subst hq
      rw [port_set_port_self st q port port2 hp, hp]
      simp only [hsame]
      cases hu : port.inward_binding_ with
      | none => exact absurd hu hin
      | some u => exact ih u
    · have hne : (st.set_port p port2).ports[q]? = st.ports[q]? := by
        simp only [ports_set_port]
        exact List.getElem?_set_ne (Ne.symm hq)
      rw [hne]
      cases st.ports[q]? with
      | none => rfl
      | some k =>
        simp only
        cases k.inward_binding_ with
        | none => rfl
        | some u => exact ih u

end reactor

/-! ## Step reset -/

namespace reactor

open multiport

theorem is_present_unbound {T : Type} (st : State T) (p fuel : Nat) (port : Port T)
    (hp : st.ports[p]? = some port) (hin : port.inward_binding_ = none) :
    is_present st (fuel + 1) p = some port.present_ := by
  simp [is_present, hp, hin]

/-- C6, counterexample: port 1 of the chain is bound to the present port 0;
right after `clear()` on port 1 its `is_present()` still returns true. -/
theorem step_reset_counterexample :
    ∃ st2, clear chain6 1 = some st2 ∧ is_present st2 6 1 = some true :=
  ⟨_, rfl, rfl⟩

/-- C6, amended: for every port whose bank pointers are valid, `clear()` and
`cleanup()` return and reset the local `present_` flag (`cleanup()` also empties
the stored value); for a port without inward binding, whatever its prior state,
`is_present()` is false right afterwards; for a port with an inward binding
`clear()` leaves the result of `is_present()` as it was, namely the flag of the
upstream port. -/
theorem step_reset {T : Type} (st : State T) (p : Nat) (port : Port T)
    (hp : st.ports[p]? = some port)
    (hvalid : port.active_ports_.valid_in st.banks.length = true) :
    ∃ st2 st3,
      clear st p = some st2 ∧ cleanup st p = some st3 ∧
        st2.ports[p]? = some { port with present_ := false } ∧
        st3.ports[p]? = some { port with present_ := false, value_ptr_ := none } ∧
        (port.inward_binding_ = none → ∀ fuel,
          is_present st2 (fuel + 1) p = some false ∧
            is_present st3 (fuel + 1) p = some false) ∧
        (port.inward_binding_ ≠ none → ∀ fuel,
          is_present st2 fuel p = is_present st fuel p) := by
  have hlt : p < st.ports.length := (List.getElem?_eq_some.1 hp).1
  obtain ⟨st2, hclear, hports2⟩ := clear_ports st p port hp hvalid
  obtain ⟨st3, hclean, hports3⟩ := clear_ports (st.set_port p { port with value_ptr_ := none }) p
    { port with value_ptr_ := none } (port_set_port_self st p port _ hp) hvalid
  simp only [ports_set_port, List.set_set] at hports3
  have hget2 : st2.ports[p]? = some { port with present_ := false } := by
    rw [hports2]; exact List.getElem?_set_self hlt
  have hget3 : st3.ports[p]? = some { port with present_ := false, value_ptr_ := none } := by
    rw [hports3]; exact List.getElem?_set_self hlt
  refine ⟨st2, st3, hclear, ?_, hget2, hget3, ?_, ?_⟩
  · simp only [cleanup, hp]
    exact hclean
  · intro hin fuel
    exact ⟨is_present_unbound st2 p fuel _ hget2 hin, is_present_unbound st3 p fuel _ hget3 hin⟩
  · intro hin fuel
    rw [is_present_of_ports (st.set_port p { port with present_ := false }) st2
      (by rw [hports2]; rfl)]
    exact is_present_set_bound st p port { port with present_ := false } hp hin rfl fuel p

/-- Witness for C6 (amended): the present root of the chain. -/
theorem step_reset_witness :
    ∃ st2 st3,
      clear chain6 0 = some st2 ∧ cleanup chain6 0 = some st3 ∧
        st2.ports[0]? = some { present_ := false, value_ptr_ := some 7 } ∧
        st3.ports[0]? = some { present_ := false, value_ptr_ := none } ∧
        ((none : Option Nat) = none → ∀ fuel,
          is_present st2 (fuel + 1) 0 = some false ∧
            is_present st3 (fuel + 1) 0 = some false) ∧
        ((none : Option Nat) ≠ none → ∀ fuel,
          is_present st2 fuel 0 = is_present chain6 fuel 0) :=
  step_reset chain6 0 { present_ := true, value_ptr_ := some 7 } rfl rfl

/-! ## Clearing a bank -/

/-- C7. Bank clear: for every bank state and every port attached to the bank,
`clear()` on that port returns and leaves the bank with `count = 0` and an empty
sparse index set (`active[0..count)` is empty, so `active_ports_indices()` is
empty in the `Callback` strategy, and the index vector has size 0 whenever it
was cleared or had size 0 before); a second `clear()` yields exactly the state
that the first one produced. -/
theorem bank_clear_idempotent {T : Type} (st : State T) (p b : Nat) (port : Port T)
    (bank : PortBankCallBack)
    (hp : st.ports[p]? = some port) (ha : port.active_ports_ = get_active_ports b)
    (hb : st.banks[b]? = some bank) :
    ∃ st2 bank2,
      clear st p = some st2 ∧ st2.banks[b]? = some bank2 ∧
        bank2.size_ = 0 ∧
        copy_range bank2.active_ports_.storage 0 bank2.size_ = some [] ∧
        (bank2.strategy_ = Strategy.Callback → bank2.active_ports_indices = some []) ∧
        (bank.size_ ≠ 0 ∨ bank.active_ports_.size = 0 → bank2.active_ports_.size = 0) ∧
        clear st2 p = some st2 := by
  have hclear := clear_attached st p b port bank hp ha hb
  have hb1 : (st.set_port p { port with present_ := false }).banks[b]? = some bank := hb
  have hb2 := bank_set_bank_self (st.set_port p { port with present_ := false }) b bank
    (if bank.size_ = 0 then bank
     else { bank with size_ := 0, active_ports_ := bank.active_ports_.clear }) hb1
  have hsize : (if bank.size_ = 0 then bank
      else { bank with size_ := 0, active_ports_ := bank.active_ports_.clear }).size_ = 0 := by
    by_cases hzero : bank.size_ = 0
    · rw [if_pos hzero]; exact hzero
    · rw [if_neg hzero]
  refine ⟨_, _, hclear, hb2, hsize, ?_, ?_, ?_, ?_⟩
  · rw [hsize]; rfl
  · intro hstrat
    rw [PortBankCallBack.active_ports_indices, hstrat, if_neg (by decide), hsize]
    rfl
  · intro h
    by_cases hzero : bank.size_ = 0
    · rw [if_pos hzero]
      rcases h with h | h
      · exact absurd hzero h
      · exact h
    · rw [if_neg hzero]
      rfl
  · have hp2 : ((st.set_port p { port with present_ := false }).set_bank b
        (if bank.size_ = 0 then bank
         else { bank with size_ := 0, active_ports_ := bank.active_ports_.clear })).ports[p]?
          = some { port with present_ := false } :=
      port_set_port_self st p port _ hp
    rw [clear_attached _ p b { port with present_ := false } _ hp2 ha hb2, if_pos hsize]
    congr 1
    cases st with
    | mk ports banks =>
      simp only [State.set_bank, State.set_port, List.set_set]

/-- Witness for C7: a member of a bank that holds two active indices. -/
theorem bank_clear_idempotent_witness :
    ∃ st2 bank2,
      clear ({ ports := [{ active_ports_ := get_active_ports 0, index_ := 0, present_ := true },
                { active_ports_ := get_active_ports 0, index_ := 1, present_ := true }],
               banks := [{ data_ := [0, 1], active_ports_ := { storage := [1, 0, 0, 0] },
                           size_ := 2 }] } : State Nat) 0 = some st2 ∧
        st2.banks[0]? = some bank2 ∧
        bank2.size_ = 0 ∧
        copy_range bank2.active_ports_.storage 0 bank2.size_ = some [] ∧
        (bank2.strategy_ = Strategy.Callback → bank2.active_ports_indices = some []) ∧
        ((2 : Nat) ≠ 0 ∨ (0 : Nat) = 0 → bank2.active_ports_.size = 0) ∧
        clear st2 0 = some st2 :=
  bank_clear_idempotent _ 0 0 { active_ports_ := get_active_ports 0, index_ := 0, present_ := true }
    { data_ := [0, 1], active_ports_ := { storage := [1, 0, 0, 0] }, size_ := 2 } rfl rfl rfl

end reactor

/-! ## Capacity overflow -/

namespace reactor

open multiport

/-- C8, counterexample: a bank of capacity 2 on which three distinct absent
member ports are activated in one step; no call throws, the third one returns
false because the second one switched the bank to `Linear`. -/
theorem capacity_overflow_counterexample :
    ∃ st2 bank2,
      (PortBankCallBack.init.reserve 1).active_ports_.capacity = 2 ∧
        activate_each 1 bank_small [0, 1, 2]
          = some (Completion.returned [true, true, false], st2) ∧
        st2.banks[0]? = some bank2 ∧ bank2.strategy_ = Strategy.Linear ∧ bank2.size_ = 2 :=
  ⟨_, _, rfl, rfl, rfl, rfl, rfl⟩

/-- C8, amended: in the `Callback` strategy an activation of an absent member
port whose fetched slot `s` is not below the capacity `C` throws
`std::runtime_error("setting to much ports")` instead of storing (the counter
has been incremented, the index sequence and the strategy are untouched); and
for a bank with `C ≤ 1` in its initial state, activating more than `C` absent
member ports in one step raises that error. -/
theorem capacity_overflow {T : Type} (fuel b : Nat) (st : State T) (bank : PortBankCallBack)
    (hb : st.banks[b]? = some bank) (hs : bank.strategy_ = Strategy.Callback) :
    (∀ (p : Nat) (port : Port T), st.ports[p]? = some port →
        is_present st fuel p = some false → port.active_ports_ = get_active_ports b →
        bank.size_ ≥ bank.active_ports_.capacity →
        activate fuel st p = some (Completion.thrown "setting to much ports",
          st.set_bank b { bank with size_ := (bank.size_ + 1) % size_t_range })) ∧
      (∀ ps : List Nat, (∀ p ∈ ps, attached_absent fuel st b p) → bank.size_ = 0 →
        bank.active_ports_.capacity ≤ 1 → bank.active_ports_.capacity < ps.length →
        ∃ st2, activate_each fuel st ps
          = some (Completion.thrown "setting to much ports", st2)) := by
  have hthrow : ∀ (st : State T) (bank : PortBankCallBack), st.banks[b]? = some bank →
      bank.strategy_ = Strategy.Callback → ∀ (p : Nat) (port : Port T),
      st.ports[p]? = some port →
      is_present st fuel p = some false → port.active_ports_ = get_active_ports b →
      bank.size_ ≥ bank.active_ports_.capacity →
      activate fuel st p = some (Completion.thrown "setting to much ports",
        st.set_bank b { bank with size_ := (bank.size_ + 1) % size_t_range }) := by
    intro st bank hb hs p port hp hpres ha hslot
    rw [activate_attached fuel st p b port bank hp hpres ha hb hs, if_pos hslot]
  refine ⟨hthrow st bank hb hs, ?_⟩
  intro ps hps hcount hC hk
  have hrange := size_t_range_eq
  cases ps with
  | nil => simp at hk
  | cons p rest =>
    obtain ⟨port, hp, ha, hpres⟩ :=
      (attached_absent_iff fuel st b p).1 (hps p (List.mem_cons_self p rest))
    by_cases hzero : bank.active_ports_.capacity = 0
    · rw [activate_each, hthrow st bank hb hs p port hp hpres ha (by omega)]
      exact ⟨_, rfl⟩
    · have hone : bank.active_ports_.capacity = 1 := by omega
      cases rest with
      | nil => simp at hk; omega
      | cons q rest2 =>
        obtain ⟨port2, hq, ha2, hpres2⟩ :=
          (attached_absent_iff fuel st b q).1
            (hps q (List.mem_cons_of_mem p (List.mem_cons_self q rest2)))
        have hstep := activate_attached fuel st p b port bank hp hpres ha hb hs
        rw [if_neg (by omega), hcount, hone] at hstep
        simp only [Nat.zero_mul, Nat.zero_mod, Nat.zero_div, Nat.zero_add, gt_iff_lt,
          Nat.not_lt_zero, if_false] at hstep
        have hmod : 1 % size_t_range = 1 := Nat.mod_eq_of_lt (by omega)
        rw [hmod] at hstep
        have hb1 := bank_set_bank_self st b bank
          { bank with
            size_ := 1
            strategy_ := Strategy.Callback
            active_ports_ := bank.active_ports_.store 0 port.index_ } hb
        have hstep2 := hthrow _ _ hb1 rfl q port2
          (by rw [ports_set_bank]; exact hq)
          (by rw [is_present_of_ports st _ (ports_set_bank st b _)]; exact hpres2) ha2
          (by
            simp only [SizeVector.store, SizeVector.capacity, List.length_set]
            simp only [SizeVector.capacity] at hone
            omega)
        rw [activate_each, hstep]
        simp only
        rw [activate_each, hstep2]
        exact ⟨_, rfl⟩

/-- Witness for C8 (amended): the first activation in a bank that was never
reserved. -/
theorem capacity_overflow_witness :
    ∃ st2, activate_each 1 bank_unreserved [0]
      = some (Completion.thrown "setting to much ports", st2) :=
  (capacity_overflow 1 0 bank_unreserved { PortBankCallBack.init with data_ := List.range 2 }
    rfl rfl).2 [0] (by decide) rfl (by decide) (by decide)

end reactor

/-! ## Ports without a bank -/

namespace reactor

open multiport

/-- Replacing a port by one with the same inward binding and the same local flag
does not change what `is_present()` returns. -/
theorem is_present_set_same {T : Type} (st : State T) (p : Nat) (port port2 : Port T)
    (hp : st.ports[p]? = some port)
    (hsame : port2.inward_binding_ = port.inward_binding_)
    (hflag : port2.present_ = port.present_) :
    ∀ (fuel q : Nat), is_present (st.set_port p port2) fuel q = is_present st fuel q := by
  intro fuel
  induction fuel with
  | zero => intro q; rfl
  | succ n ih =>
    intro q
    simp only [is_present]
    by_cases hq : q = p
    · subst hq
      rw [port_set_port_self st q port port2 hp, hp]
      simp only [hsame, hflag]
      cases port.inward_binding_ with
      | none => rfl
      | some u => exact ih u
    · have hne : (st.set_port p port2).ports[q]? = st.ports[q]? := by
        simp only [ports_set_port]
        exact List.getElem?_set_ne (Ne.symm hq)
      rw [hne]
      cases st.ports[q]? with
      | none => rfl
      | some k =>
        simp only
        cases k.inward_binding_ with
        | none => rfl
        | some u => exact ih u

/-- On a port whose `active_ports_` pointer is null, `activate()` returns false
and `clear()` resets the local flag, whatever the banks are, and the banks stay
as they are. -/
theorem no_bank_frame {T : Type} (fuel : Nat) (st : State T) (p : Nat) (port : Port T)
    (pres : Bool) (hp : st.ports[p]? = some port)
    (hnull : port.active_ports_.active_ports_ = none)
    (hpres : is_present st fuel p = some pres) (banks2 : List PortBankCallBack) :
    activate fuel { st with banks := banks2 } p
        = some (Completion.returned false, { st with banks := banks2 }) ∧
      clear { st with banks := banks2 } p
        = some { ports := st.ports.set p { port with present_ := false }, banks := banks2 } := by
  have hpres2 : is_present { st with banks := banks2 } fuel p = some pres :=
    (is_present_of_ports st { st with banks := banks2 } rfl fuel p).trans hpres
  have hp2 : ({ st with banks := banks2 } : State T).ports[p]? = some port := hp
  constructor
  · unfold activate
    rw [hp2, hpres2]
    cases pres
    · simp only [hnull]
    · rfl
  · unfold clear
    rw [hp2]
    simp only [hnull]
    rfl

/-- C9. Ports without a bank: on a port whose bank back-reference is null (a
port that never was a multiport member, or one on which `deactivate()` was
called), `activate()` returns false and leaves the whole state unchanged, and
`clear()` only resets the port's own `present_` flag; both give the same result
whatever the banks hold, so no bank's count, index sequence or strategy is read
or modified.  `deactivate()` nulls the back-reference of any port. -/
theorem ports_without_bank {T : Type} (fuel : Nat) (st : State T) (p : Nat) (port : Port T)
    (pres : Bool) (hp : st.ports[p]? = some port)
    (hpres : is_present st fuel p = some pres) :
    (port.active_ports_.active_ports_ = none → ∀ banks2 : List PortBankCallBack,
        activate fuel { st with banks := banks2 } p
            = some (Completion.returned false, { st with banks := banks2 }) ∧
          clear { st with banks := banks2 } p
            = some { ports := st.ports.set p { port with present_ := false },
                     banks := banks2 }) ∧
      (∃ st2 port2,
        deactivate st p = some st2 ∧ st2.banks = st.banks ∧
          st2.ports[p]? = some port2 ∧
          port2.active_ports_.active_ports_ = none ∧ port2.active_ports_.size_ = none ∧
          ∀ banks2 : List PortBankCallBack,
            activate fuel { st2 with banks := banks2 } p
                = some (Completion.returned false, { st2 with banks := banks2 }) ∧
              clear { st2 with banks := banks2 } p
                = some { ports := st2.ports.set p { port2 with present_ := false },
                         banks := banks2 }) := by
  constructor
  · intro hnull banks2
    exact no_bank_frame fuel st p port pres hp hnull hpres banks2
  · have hp2 := port_set_port_self st p port
      { port with active_ports_ := { port.active_ports_ with
          active_ports_ := none, size_ := none } } hp
    refine ⟨_, _, ?_, ?_, hp2, rfl, rfl, ?_⟩
    · simp only [deactivate, hp]
    · rfl
    · intro banks2
      refine no_bank_frame fuel _ p _ pres hp2 rfl ?_ banks2
      rw [← hpres]
      exact is_present_set_same st p port
        { port with active_ports_ := { port.active_ports_ with
            active_ports_ := none, size_ := none } } hp rfl rfl fuel p

/-- Witness for C9: a port that never was a member of a bank, next to the banks
of another state. -/
theorem ports_without_bank_witness :
    activate 1 { chain6 with banks := bank100.banks } 0
        = some (Completion.returned false, { chain6 with banks := bank100.banks }) ∧
      clear { chain6 with banks := bank100.banks } 0
        = some { ports := chain6.ports.set 0 { present_ := false, value_ptr_ := some 7 },
                 banks := bank100.banks } :=
  (ports_without_bank 1 chain6 0 { present_ := true, value_ptr_ := some 7 } true
    rfl rfl).1 rfl bank100.banks

end reactor

/-! ## The delay of a connection -/

namespace reactor

/-- C10, counterexample: a connection constructed with delay 10 whose source
port holds the value 7; `trigger()` calls `schedule` with the value 7 and with
the delay 0, not 10. -/
theorem connection_delay_counterexample :
    Connection.trigger stored_value chain6 (Connection.construct "c" 10 (some 0) (some 1))
        = some { value := some 7, delay := 0 } ∧
      (0 : Duration) ≠ 10 :=
  ⟨rfl, by decide⟩

/-- C10, amended: for every connection constructed with delay `d` between a
source and a sink port, `trigger()` reads the source port's current value and
calls `schedule` with that value and with the member `delay_`, which is 0
whatever `d` is; the constructor hands `d` to the `BaseAction` base and to
nothing else. -/
theorem connection_delay {T : Type} (get : State T → Nat → Option (Option T)) (st : State T)
    (name : String) (d : Duration) (source sink : Nat) (value : Option T)
    (hget : get st source = some value) :
    Connection.trigger get st (Connection.construct name d (some source) (some sink))
        = some { value := value, delay := 0 } ∧
      (Connection.construct name d (some source) (some sink)).delay_ = 0 ∧
      (Connection.construct name d (some source) (some sink)).base.delay = d := by
  refine ⟨?_, rfl, rfl⟩
  simp [Connection.trigger, Connection.construct, hget]

/-- Witness for C10 (amended): delay 10, source port 0 of the chain. -/
theorem connection_delay_witness :
    Connection.trigger stored_value chain6 (Connection.construct "c" 10 (some 0) (some 1))
        = some { value := some 7, delay := 0 } ∧
      (Connection.construct "c" 10 (some 0) (some 1)).delay_ = 0 ∧
      (Connection.construct "c" 10 (some 0) (some 1)).base.delay = 10 :=
  connection_delay stored_value chain6 "c" 10 0 1 (some 7) rfl

end reactor

/-! ## Delivery of a connection -/

namespace reactor

open multiport

/-- C11, the code at the failing input: a connection with delay 10 from port 0
to port 1; `trigger()` schedules the value 7 that the source holds, the source
is then cleaned up, and on firing `setup()` calls `set` on the sink with the
value the source holds now, which is none, not with the carried 7. -/
theorem connection_delivery_rereads_source :
    Connection.trigger stored_value wire2 (Connection.construct "c" 10 (some 0) (some 1))
        = some { value := some 7, delay := 0 } ∧
      ∃ st2, cleanup wire2 0 = some st2 ∧
        Connection.setup stored_value st2 (Connection.construct "c" 10 (some 0) (some 1))
          = some (some { port := 1, value := none }) :=
  ⟨rfl, _, rfl, rfl⟩

/-- C12. Deferral: for every connection, whatever its delay (zero included),
`trigger()` returns and leaves every port as it was, the sink's value and
present flag among them; its one effect is a pending firing that carries the
source's value and is due at `now + delay_` (at `now` itself for delay 0, queued
and not delivered); the set callback does the same and returns true.  The call
of `set` on the sink is made by `setup()`, on firing. -/
theorem trigger_defers_delivery {T : Type} (get : State T → Nat → Option (Option T))
    (rt : Runtime T) (c : Connection) (source sink port : Nat) (value : Option T)
    (hsource : c.incoming_port_interface_ = some source)
    (hsink : c.outgoing_port_interface_ = some sink)
    (hget : get rt.state source = some value) :
    ∃ rt2, c.trigger_run get rt = some rt2 ∧
      c.get_set_callback get rt port = some (true, rt2) ∧
      rt2.state = rt.state ∧
      rt2.state.ports[sink]? = rt.state.ports[sink]? ∧
      rt2.now = rt.now ∧
      rt2.pending = rt.pending ++ [{ time := rt.now + c.delay_, value := value }] ∧
      (c.delay_ = 0 →
        rt2.pending = rt.pending ++ [{ time := rt.now, value := value }]) ∧
      c.setup get rt2.state = some (some { port := sink, value := value }) := by
  have htrig : c.trigger get rt.state = some { value := value, delay := c.delay_ } := by
    simp only [Connection.trigger, hsource, hget]
  have hrun : c.trigger_run get rt = some (rt.schedule value c.delay_) := by
    simp only [Connection.trigger_run, htrig]
  refine ⟨rt.schedule value c.delay_, hrun, ?_, rfl, rfl, rfl, rfl, ?_, ?_⟩
  · simp only [Connection.get_set_callback, hrun]
  · intro hzero
    simp only [Runtime.schedule, hzero, Int.add_zero]
  · simp only [Connection.setup, hsink, Runtime.schedule, hsource, hget, Option.isSome_some,
      Bool.and_self, if_true]

/-- Witness for C12: a connection with delay 0 at logical time 5, nothing
pending. -/
theorem trigger_defers_delivery_witness :
    ∃ rt2,
      Connection.trigger_run stored_value { state := wire2, now := 5, pending := [] }
          { base := { name := "c", flag := true, delay := 0 },
            incoming_port_interface_ := some 0, outgoing_port_interface_ := some 1 }
        = some rt2 ∧
      Connection.get_set_callback stored_value
          { base := { name := "c", flag := true, delay := 0 },
            incoming_port_interface_ := some 0, outgoing_port_interface_ := some 1 }
          { state := wire2, now := 5, pending := [] } 0 = some (true, rt2) ∧
      rt2.state = wire2 ∧
      rt2.state.ports[1]? = wire2.ports[1]? ∧
      rt2.now = 5 ∧
      rt2.pending = [] ++ [{ time := 5 + 0, value := some 7 }] ∧
      ((0 : Duration) = 0 → rt2.pending = [] ++ [{ time := 5, value := some 7 }]) ∧
      Connection.setup stored_value rt2.state
          { base := { name := "c", flag := true, delay := 0 },
            incoming_port_interface_ := some 0, outgoing_port_interface_ := some 1 }
        = some (some { port := 1, value := some 7 }) :=
  trigger_defers_delivery stored_value { state := wire2, now := 5, pending := [] }
    { base := { name := "c", flag := true, delay := 0 },
      incoming_port_interface_ := some 0, outgoing_port_interface_ := some 1 }
    0 1 0 (some 7) rfl rfl rfl

end reactor

/-! ## Destruction of a bank -/

namespace reactor

open multiport

theorem deactivate_all_members {T : Type} :
    ∀ (ps : List Nat) (st : State T), (∀ p ∈ ps, p < st.ports.length) →
      ∃ st2, deactivate_all st ps = some st2 ∧ st2.banks = st.banks ∧
        st2.ports.length = st.ports.length ∧
        (∀ p ∈ ps, ∃ port2, st2.ports[p]? = some port2 ∧
          port2.active_ports_.active_ports_ = none ∧ port2.active_ports_.size_ = none) ∧
        (∀ (q : Nat) (port : Port T), st.ports[q]? = some port →
          port.active_ports_.active_ports_ = none → port.active_ports_.size_ = none →
          ∃ port2, st2.ports[q]? = some port2 ∧
            port2.active_ports_.active_ports_ = none ∧ port2.active_ports_.size_ = none) := by
  intro ps
  induction ps with
  | nil =>
    intro st _
    exact ⟨st, rfl, rfl, rfl, fun p hp => by simp at hp, fun q port hq h1 h2 => ⟨port, hq, h1, h2⟩⟩
  | cons p rest ih =>
    intro st hps
    have hlt : p < st.ports.length := hps p (List.mem_cons_self p rest)
    have hp : st.ports[p]? = some st.ports[p] := List.getElem?_eq_getElem hlt
    have hstep : deactivate st p = some (st.set_port p { st.ports[p] with
        active_ports_ := { st.ports[p].active_ports_ with
          active_ports_ := none, size_ := none } }) := by
      simp only [deactivate, hp]
    obtain ⟨st2, hrun, hbanks, hlen, hall, hold⟩ := ih (st.set_port p { st.ports[p] with
        active_ports_ := { st.ports[p].active_ports_ with
          active_ports_ := none, size_ := none } })
      (fun q hq => by
        simp only [ports_set_port, List.length_set]
        exact hps q (List.mem_cons_of_mem p hq))
    refine ⟨st2, ?_, ?_, ?_, ?_, ?_⟩
    · simp only [deactivate_all, hstep, hrun]
    · rw [hbanks]; rfl
    · rw [hlen]; simp [ports_set_port]
    · intro q hq
      rcases List.mem_cons.1 hq with hqp | hq
      · subst hqp
        exact hold q _ (port_set_port_self st q _ _ hp) rfl rfl
      · exact hall q hq
    · intro q port hq h1 h2
      by_cases hqp : q = p
      · subst hqp
        exact hold q _ (port_set_port_self st q _ _ hp) rfl rfl
      · refine hold q port ?_ h1 h2
        rw [ports_set_port, List.getElem?_set_ne (Ne.symm hqp)]
        exact hq

/-- C13, the code at the failing input: a bank whose member ports are stored by
value.  The class of the members has `deactivate` but no member named
`has_deactivate`, so the trait is false, the destructor calls nothing, and the
back-reference of member 0 still addresses the bank; the same bank with its
members stored by pointer has every back-reference nulled. -/
theorem bank_teardown_by_value_skips_deactivate :
    port_members.contains "deactivate" = true ∧ has_deactivate port_members = false ∧
      PortBankCallBack.destroy { is_pointer := false, members := port_members } bank_small
          { (PortBankCallBack.init.reserve 1) with data_ := List.range 3 } = some bank_small ∧
      (bank_small.ports[0]?).map (fun q => q.active_ports_.active_ports_) = some (some 0) ∧
      ∃ st2, PortBankCallBack.destroy { is_pointer := true, members := port_members } bank_small
          { (PortBankCallBack.init.reserve 1) with data_ := List.range 3 } = some st2 ∧
        st2.ports.map (fun q => (q.active_ports_.active_ports_, q.active_ports_.size_))
          = [(none, none), (none, none), (none, none)] :=
  ⟨by decide, by decide, by decide, by decide, _, rfl, by decide⟩

end reactor

/-! ## The validation mechanism -/

namespace reactor

open multiport

/-- C14, counterexample: with runtime validation compiled out `validate` raises
nothing on a false condition, while `activate()` on a bank without capacity still
leaves by its exception. -/
theorem single_validation_counterexample :
    validate false false "setting to much ports" = some Raised.nothing ∧
      ∃ st2, activate 1 bank_unreserved 0
        = some (Completion.thrown "setting to much ports", st2) :=
  ⟨rfl, _, rfl⟩

/-- C14, amended: the capacity fault of `activate()` does not go through
`validate`: on a slot that is not below the capacity `activate()` throws
`std::runtime_error("setting to much ports")` by a plain `throw`, in which the
build-time switch has no part; in particular it is raised with runtime
validation compiled out, where `validate` raises nothing whatever its
condition. -/
theorem validation_and_capacity_fault {T : Type} (fuel : Nat) (st : State T) (p b : Nat)
    (port : Port T) (bank : PortBankCallBack)
    (hp : st.ports[p]? = some port) (hpres : is_present st fuel p = some false)
    (ha : port.active_ports_ = get_active_ports b) (hb : st.banks[b]? = some bank)
    (hs : bank.strategy_ = Strategy.Callback)
    (hslot : bank.size_ ≥ bank.active_ports_.capacity) :
    activate fuel st p = some (Completion.thrown "setting to much ports",
        st.set_bank b { bank with size_ := (bank.size_ + 1) % size_t_range }) ∧
      (∀ (condition : Bool) (message : String),
        validate false condition message = some Raised.nothing) ∧
      validate false (decide (bank.size_ < bank.active_ports_.capacity))
        "setting to much ports" = some Raised.nothing := by
  refine ⟨?_, fun _ _ => rfl, rfl⟩
  rw [activate_attached fuel st p b port bank hp hpres ha hb hs, if_pos hslot]

/-- Witness for C14 (amended): the first activation in a bank that was never
reserved. -/
theorem validation_and_capacity_fault_witness :
    activate 1 bank_unreserved 0 = some (Completion.thrown "setting to much ports",
        bank_unreserved.set_bank 0
          { PortBankCallBack.init with data_ := List.range 2, size_ := 1 }) ∧
      (∀ (condition : Bool) (message : String),
        validate false condition message = some Raised.nothing) ∧
      validate false (decide ((0 : Nat) < 0)) "setting to much ports"
        = some Raised.nothing :=
  validation_and_capacity_fault 1 bank_unreserved 0 0
    { active_ports_ := get_active_ports 0, index_ := 0 }
    { PortBankCallBack.init with data_ := List.range 2 } rfl rfl rfl rfl rfl (by decide)

end reactor

/-! ## The dense strategy is absorbing -/

namespace reactor

open multiport

theorem keeps_dense_of_banks {T : Type} (st st2 : State T) (h : st2.banks = st.banks) :
    keeps_dense st st2 := by
  intro b bank hb
  exact ⟨bank, by rw [h]; exact hb, rfl, fun hs => hs⟩

theorem keeps_dense_trans {T : Type} (st st1 st2 : State T) (h1 : keeps_dense st st1)
    (h2 : keeps_dense st1 st2) : keeps_dense st st2 := by
  intro b bank hb
  obtain ⟨bank1, hb1, hd1, hs1⟩ := h1 b bank hb
  obtain ⟨bank2, hb2, hd2, hs2⟩ := h2 b bank1 hb1
  exact ⟨bank2, hb2, by rw [hd2, hd1], fun hs => hs2 (hs1 hs)⟩

theorem keeps_dense_update_bank {T : Type} (st st1 : State T) (z : Nat)
    (f : PortBankCallBack → PortBankCallBack)
    (hf : ∀ k, (f k).data_ = k.data_ ∧
      (k.strategy_ = Strategy.Linear → (f k).strategy_ = Strategy.Linear))
    (h : st.update_bank z f = some st1) : keeps_dense st st1 := by
  intro b bank hb
  unfold State.update_bank at h
  cases hz : st.banks[z]? with
  | none => rw [hz] at h; simp at h
  | some zbank =>
    rw [hz] at h
    simp only [Option.some.injEq] at h
    subst h
    by_cases hbz : z = b
    · subst hbz
      rw [hb] at hz
      have : bank = zbank := Option.some.inj hz
      subst this
      exact ⟨f bank, bank_set_bank_self st z bank _ hb, (hf bank).1, (hf bank).2⟩
    · refine ⟨bank, ?_, rfl, fun hs => hs⟩
      rw [banks_set_bank, List.getElem?_set_ne hbz]
      exact hb

theorem keeps_dense_if_update {T : Type} (st st1 : State T) (z : Nat)
    (f : PortBankCallBack → PortBankCallBack) (cond : Prop) [Decidable cond]
    (hf : ∀ k, (f k).data_ = k.data_ ∧
      (k.strategy_ = Strategy.Linear → (f k).strategy_ = Strategy.Linear))
    (h : (if cond then st.update_bank z f else some st) = some st1) :
    keeps_dense st st1 := by
  by_cases hc : cond
  · rw [if_pos hc] at h
    exact keeps_dense_update_bank st st1 z f hf h
  · rw [if_neg hc] at h
    simp only [Option.some.injEq] at h
    subst h
    exact keeps_dense_of_banks st st rfl

theorem activate_keeps_dense {T : Type} (fuel : Nat) (st st2 : State T) (p : Nat)
    (c : Completion Bool) (h : activate fuel st p = some (c, st2)) : keeps_dense st st2 := by
  unfold activate at h
  repeat' split at h
  all_goals try (simp at h)
  all_goals repeat' split at h
  all_goals try (simp at h)
  all_goals obtain ⟨_, hst⟩ := h
  all_goals subst hst
  · exact keeps_dense_of_banks _ _ rfl
  · exact keeps_dense_of_banks _ _ rfl
  · refine keeps_dense_update_bank _ _ _ _ ?_ (by assumption)
    exact fun k => ⟨rfl, fun hs => hs⟩
  · refine keeps_dense_trans _ _ _ (keeps_dense_update_bank _ _ _ _ ?_ (by assumption)) ?_
    · exact fun k => ⟨rfl, fun hs => hs⟩
    refine keeps_dense_trans _ _ _ (keeps_dense_if_update _ _ _ _ _ ?_ (by assumption)) ?_
    · exact fun k => ⟨rfl, fun _ => rfl⟩
    refine keeps_dense_update_bank _ _ _ _ ?_ (by assumption)
    exact fun k => ⟨rfl, fun hs => hs⟩
  · exact keeps_dense_of_banks _ _ rfl

theorem clear_keeps_dense {T : Type} (st st2 : State T) (p : Nat)
    (h : clear st p = some st2) : keeps_dense st st2 := by
  unfold clear at h
  dsimp only at h
  repeat' split at h
  all_goals try (simp at h)
  · subst h
    exact keeps_dense_of_banks _ _ rfl
  · subst h
    exact keeps_dense_of_banks _ _ rfl
  · refine keeps_dense_trans _ _ _ ?_ (keeps_dense_update_bank _ _ _ _ ?_ h)
    swap
    · exact fun k => ⟨rfl, fun hs => hs⟩
    refine keeps_dense_trans _ _ _ ?_ (keeps_dense_update_bank _ _ _ _ ?_ (by assumption))
    swap
    · exact fun k => ⟨rfl, fun hs => hs⟩
    exact keeps_dense_of_banks _ _ rfl

theorem step_keeps_dense {T : Type} (fuel : Nat) (st st2 : State T) (call : PortCall)
    (e : Option String) (h : call.step fuel st = some (e, st2)) : keeps_dense st st2 := by
  cases call with
  | activate p =>
    simp only [PortCall.step] at h
    cases hact : activate fuel st p with
    | none => rw [hact] at h; simp at h
    | some r =>
      obtain ⟨c, st1⟩ := r
      rw [hact] at h
      have hst : st1 = st2 := by
        cases c <;> simp at h <;> exact h.2
      subst hst
      exact activate_keeps_dense fuel st st1 p c hact
  | clear p =>
    simp only [PortCall.step] at h
    cases hc : clear st p with
    | none => rw [hc] at h; simp at h
    | some st1 =>
      rw [hc] at h
      simp only [Option.some.injEq, Prod.mk.injEq] at h
      rw [← h.2]
      exact clear_keeps_dense st st1 p hc
  | cleanup p =>
    simp only [PortCall.step, cleanup] at h
    cases hp : st.ports[p]? with
    | none => rw [hp] at h; simp at h
    | some port =>
      rw [hp] at h
      simp only at h
      cases hc : clear (st.set_port p { port with value_ptr_ := none }) p with
      | none => rw [hc] at h; simp at h
      | some st1 =>
        rw [hc] at h
        simp only [Option.some.injEq, Prod.mk.injEq] at h
        rw [← h.2]
        exact keeps_dense_trans st (st.set_port p { port with value_ptr_ := none }) st1
          (keeps_dense_of_banks _ _ rfl) (clear_keeps_dense _ st1 p hc)
  | deactivate p =>
    simp only [PortCall.step, deactivate] at h
    cases hp : st.ports[p]? with
    | none => rw [hp] at h; simp at h
    | some port =>
      rw [hp] at h
      simp only [Option.some.injEq, Prod.mk.injEq] at h
      rw [← h.2]
      exact keeps_dense_of_banks _ _ rfl

theorem run_calls_keeps_dense {T : Type} (fuel : Nat) :
    ∀ (calls : List PortCall) (st st2 : State T) (es : List (Option String)),
      run_calls fuel st calls = some (es, st2) → keeps_dense st st2 := by
  intro calls
  induction calls with
  | nil =>
    intro st st2 es h
    simp only [run_calls, Option.some.injEq, Prod.mk.injEq] at h
    rw [← h.2]
    exact keeps_dense_of_banks _ _ rfl
  | cons call rest ih =>
    intro st st2 es h
    rw [run_calls] at h
    cases hstep : call.step fuel st with
    | none => rw [hstep] at h; simp at h
    | some r =>
      obtain ⟨e, st1⟩ := r
      rw [hstep] at h
      simp only at h
      cases hrest : run_calls fuel st1 rest with
      | none => rw [hrest] at h; simp at h
      | some r2 =>
        obtain ⟨es2, st3⟩ := r2
        rw [hrest] at h
        simp only [Option.some.injEq, Prod.mk.injEq] at h
        rw [← h.2]
        exact keeps_dense_trans _ _ _ (step_keeps_dense fuel st st1 call e hstep)
          (ih st1 st3 es2 hrest)

theorem update_bank_some {T : Type} (st : State T) (z : Nat)
    (f : PortBankCallBack → PortBankCallBack) (hz : z < st.banks.length) :
    ∃ st1, st.update_bank z f = some st1 ∧ st1.ports = st.ports ∧
      st1.banks.length = st.banks.length := by
  refine ⟨st.set_bank z (f st.banks[z]), ?_, rfl, ?_⟩
  · simp only [State.update_bank, List.getElem?_eq_getElem hz]
  · simp only [banks_set_bank, List.length_set]

theorem same_shape_refl {T : Type} (st : State T) : same_shape st st :=
  ⟨rfl, rfl, fun _ port hp => ⟨port, hp, rfl, Or.inl rfl⟩⟩

theorem same_shape_of_ports {T : Type} (st st2 : State T) (hports : st2.ports = st.ports)
    (hbanks : st2.banks.length = st.banks.length) : same_shape st st2 :=
  ⟨hbanks, by rw [hports], fun _ port hp => ⟨port, by rw [hports]; exact hp, rfl, Or.inl rfl⟩⟩

theorem same_shape_trans {T : Type} (st st1 st2 : State T) (h1 : same_shape st st1)
    (h2 : same_shape st1 st2) : same_shape st st2 := by
  obtain ⟨hb1, hl1, hp1⟩ := h1
  obtain ⟨hb2, hl2, hp2⟩ := h2
  refine ⟨by rw [hb2, hb1], by rw [hl2, hl1], ?_⟩
  intro p port hp
  obtain ⟨port1, hq1, hin1, hptr1⟩ := hp1 p port hp
  obtain ⟨port2, hq2, hin2, hptr2⟩ := hp2 p port1 hq1
  refine ⟨port2, hq2, by rw [hin2, hin1], ?_⟩
  rcases hptr2 with h | h
  · rcases hptr1 with h1 | h1
    · exact Or.inl (by rw [h, h1])
    · exact Or.inr (by rw [h]; exact h1)
  · exact Or.inr h

theorem same_shape_set_port {T : Type} (st : State T) (p : Nat) (port port2 : Port T)
    (hp : st.ports[p]? = some port)
    (hin : port2.inward_binding_ = port.inward_binding_)
    (hptr : port2.active_ports_ = port.active_ports_ ∨
      port2.active_ports_.active_ports_ = none) :
    same_shape st (st.set_port p port2) := by
  refine ⟨rfl, by simp only [ports_set_port, List.length_set], ?_⟩
  intro q portq hq
  by_cases hqp : q = p
  · subst hqp
    rw [hp] at hq
    have : port = portq := Option.some.inj hq
    subst this
    exact ⟨port2, port_set_port_self st q port port2 hp, hin, hptr⟩
  · refine ⟨portq, ?_, rfl, Or.inl rfl⟩
    rw [ports_set_port, List.getElem?_set_ne (Ne.symm hqp)]
    exact hq

/-- Whether `is_present()` returns is settled by the inward bindings. -/
theorem is_present_isSome_shape {T : Type} (st st2 : State T) (h : same_shape st st2) :
    ∀ (fuel q : Nat), (is_present st fuel q).isSome = true →
      (is_present st2 fuel q).isSome = true := by
  intro fuel
  induction fuel with
  | zero => intro q hq; simp [is_present] at hq
  | succ n ih =>
    intro q hq
    simp only [is_present] at hq ⊢
    cases hport : st.ports[q]? with
    | none => rw [hport] at hq; simp at hq
    | some port =>
      obtain ⟨port2, hq2, hin, _⟩ := h.2.2 q port hport
      rw [hport] at hq
      rw [hq2]
      simp only [hin] at hq ⊢
      cases hu : port.inward_binding_ with
      | none => rfl
      | some u =>
        rw [hu] at hq
        exact ih u hq

theorem pointers_ok_of_null (l : LockedPortList) (n : Nat) (h : l.active_ports_ = none) :
    l.pointers_ok n = true := by
  simp [LockedPortList.pointers_ok, h]

theorem well_formed_shape {T : Type} (fuel : Nat) (st st2 : State T)
    (hwf : well_formed fuel st) (h : same_shape st st2) : well_formed fuel st2 := by
  intro p port2 hp2
  have hlt : p < st.ports.length := by
    rw [← h.2.1]; exact (List.getElem?_eq_some.1 hp2).1
  obtain ⟨port1, hq1, _, hptr⟩ := h.2.2 p st.ports[p] (List.getElem?_eq_getElem hlt)
  rw [hp2] at hq1
  have hsame : port2 = port1 := Option.some.inj hq1
  subst hsame
  obtain ⟨hpres, hok⟩ := hwf p st.ports[p] (List.getElem?_eq_getElem hlt)
  refine ⟨is_present_isSome_shape st st2 h fuel p hpres, ?_⟩
  rcases hptr with hptr | hptr
  · rw [hptr, h.1]; exact hok
  · exact pointers_ok_of_null _ _ hptr

theorem activate_returns {T : Type} (fuel : Nat) (st : State T) (p : Nat)
    (hwf : well_formed fuel st) (hp : p < st.ports.length) :
    ∃ c st2, activate fuel st p = some (c, st2) ∧ same_shape st st2 := by
  have hport : st.ports[p]? = some st.ports[p] := List.getElem?_eq_getElem hp
  obtain ⟨hsome, hok⟩ := hwf p _ hport
  obtain ⟨pres, hpres⟩ := Option.isSome_iff_exists.1 hsome
  unfold activate
  rw [hport, hpres]
  cases pres with
  | true => exact ⟨_, _, rfl, same_shape_refl st⟩
  | false =>
    simp only
    cases ha : st.ports[p].active_ports_.active_ports_ with
    | none => exact ⟨_, _, rfl, same_shape_refl st⟩
    | some a =>
      simp only [LockedPortList.pointers_ok, ha, Bool.and_eq_true, decide_eq_true_eq] at hok
      obtain ⟨⟨ha_lt, hz⟩, hs⟩ := hok
      cases hsz : st.ports[p].active_ports_.size_ with
      | none => rw [hsz] at hz; simp at hz
      | some z =>
        cases hstr : st.ports[p].active_ports_.strategy_ with
        | none => rw [hstr] at hs; simp at hs
        | some s =>
          rw [hsz] at hz
          rw [hstr] at hs
          simp only [decide_eq_true_eq] at hz hs
          simp only [List.getElem?_eq_getElem hs, List.getElem?_eq_getElem hz]
          split
          · obtain ⟨st1, hu1, hp1, hl1⟩ := update_bank_some st z
              (fun k => { k with size_ := (k.size_ + 1) % size_t_range }) hz
            rw [hu1]
            have ha1 : a < st1.banks.length := by rw [hl1]; exact ha_lt
            simp only [List.getElem?_eq_getElem ha1]
            split
            · exact ⟨_, _, rfl, same_shape_of_ports st st1 hp1 hl1⟩
            · have hlin := update_bank_some st1 s
                (fun k => { k with strategy_ := Strategy.Linear }) (by rw [hl1]; exact hs)
              split
              · rename_i heq
                exfalso
                split at heq
                · obtain ⟨st2, hu2, _, _⟩ := hlin
                  rw [hu2] at heq
                  simp at heq
                · simp at heq
              · rename_i st2 heq
                have hshape : st2.ports = st1.ports ∧ st2.banks.length = st1.banks.length := by
                  split at heq
                  · obtain ⟨st2b, hu2, hp2, hl2⟩ := hlin
                    rw [hu2] at heq
                    have : st2b = st2 := Option.some.inj heq
                    subst this
                    exact ⟨hp2, hl2⟩
                  · have : st1 = st2 := Option.some.inj heq
                    subst this
                    exact ⟨rfl, rfl⟩
                obtain ⟨st3, hu3, hp3, hl3⟩ := update_bank_some st2 a
                  (fun k => { k with active_ports_ :=
                    k.active_ports_.store st.banks[z].size_ st.ports[p].index_ })
                  (by rw [hshape.2, hl1]; exact ha_lt)
                simp only [hu3]
                exact ⟨_, _, rfl, same_shape_of_ports st st3 (by rw [hp3, hshape.1, hp1])
                  (by rw [hl3, hshape.2, hl1])⟩
          · exact ⟨_, _, rfl, same_shape_refl st⟩

theorem clear_returns {T : Type} (fuel : Nat) (st : State T) (p : Nat)
    (hwf : well_formed fuel st) (hp : p < st.ports.length) :
    ∃ st2, clear st p = some st2 ∧ same_shape st st2 := by
  have hport : st.ports[p]? = some st.ports[p] := List.getElem?_eq_getElem hp
  obtain ⟨_, hok⟩ := hwf p _ hport
  have hflag := same_shape_set_port st p st.ports[p] { st.ports[p] with present_ := false }
    hport rfl (Or.inl rfl)
  unfold clear
  rw [hport]
  dsimp only
  cases ha : st.ports[p].active_ports_.active_ports_ with
  | none => exact ⟨_, rfl, hflag⟩
  | some a =>
    simp only [LockedPortList.pointers_ok, ha, Bool.and_eq_true, decide_eq_true_eq] at hok
    obtain ⟨⟨ha_lt, hz⟩, _⟩ := hok
    cases hsz : st.ports[p].active_ports_.size_ with
    | none => rw [hsz] at hz; simp at hz
    | some z =>
      rw [hsz] at hz
      simp only [decide_eq_true_eq] at hz
      simp only [banks_set_port, List.getElem?_eq_getElem hz]
      split
      · exact ⟨_, rfl, hflag⟩
      · obtain ⟨st2, hu2, hp2, hl2⟩ := update_bank_some
          (st.set_port p { st.ports[p] with present_ := false }) z
          (fun k => { k with size_ := 0 }) hz
        rw [hu2]
        obtain ⟨st3, hu3, hp3, hl3⟩ := update_bank_some st2 a
          (fun k => { k with active_ports_ := k.active_ports_.clear })
          (by rw [hl2]; exact ha_lt)
        exact ⟨st3, hu3, same_shape_trans _ _ _ hflag
          (same_shape_of_ports _ st3 (by rw [hp3, hp2]) (by rw [hl3, hl2]))⟩

theorem step_returns {T : Type} (fuel : Nat) (st : State T) (call : PortCall)
    (hwf : well_formed fuel st) (hp : call.port < st.ports.length) :
    ∃ e st2, call.step fuel st = some (e, st2) ∧ same_shape st st2 := by
  have hport : st.ports[call.port]? = some st.ports[call.port] := List.getElem?_eq_getElem hp
  cases call with
  | activate p =>
    obtain ⟨c, st2, hact, hshape⟩ := activate_returns fuel st p hwf hp
    cases c with
    | returned r => exact ⟨none, st2, by simp only [PortCall.step, hact], hshape⟩
    | thrown what => exact ⟨some what, st2, by simp only [PortCall.step, hact], hshape⟩
  | clear p =>
    obtain ⟨st2, hclear, hshape⟩ := clear_returns fuel st p hwf hp
    exact ⟨none, st2, by simp only [PortCall.step, hclear], hshape⟩
  | cleanup p =>
    have hp0 : st.ports[p]? = some st.ports[p] := hport
    have hvalue := same_shape_set_port st p st.ports[p] { st.ports[p] with value_ptr_ := none }
      hp0 rfl (Or.inl rfl)
    obtain ⟨st2, hclear, hshape⟩ := clear_returns fuel
      (st.set_port p { st.ports[p] with value_ptr_ := none }) p
      (well_formed_shape fuel st _ hwf hvalue) (by rw [hvalue.2.1]; exact hp)
    exact ⟨none, st2, by simp only [PortCall.step, cleanup, hp0, hclear],
      same_shape_trans _ _ _ hvalue hshape⟩
  | deactivate p =>
    have hp0 : st.ports[p]? = some st.ports[p] := hport
    exact ⟨none, st.set_port p { st.ports[p] with
        active_ports_ := { st.ports[p].active_ports_ with
          active_ports_ := none, size_ := none } },
      by simp only [PortCall.step, deactivate, hp0],
      same_shape_set_port st p st.ports[p] _ hp0 rfl (Or.inr rfl)⟩

theorem run_calls_returns {T : Type} (fuel : Nat) :
    ∀ (calls : List PortCall) (st : State T), well_formed fuel st →
      (∀ c ∈ calls, c.port < st.ports.length) →
      ∃ es st2, run_calls fuel st calls = some (es, st2) := by
  intro calls
  induction calls with
  | nil => intro st _ _; exact ⟨[], st, rfl⟩
  | cons call rest ih =>
    intro st hwf hports
    obtain ⟨e, st1, hstep, hshape⟩ := step_returns fuel st call hwf
      (hports call (List.mem_cons_self call rest))
    obtain ⟨es, st2, hrun⟩ := ih st1 (well_formed_shape fuel st st1 hwf hshape)
      (fun c hc => by rw [hshape.2.1]; exact hports c (List.mem_cons_of_mem call hc))
    exact ⟨e :: es, st2, by simp only [run_calls, hstep, hrun]⟩

/-- C16. Dense is absorbing: once a bank is in the `Linear` strategy, every
sequence of `activate()`, `clear()`, `cleanup()` and `deactivate()` calls on the
ports of a well-formed state returns, and afterwards the bank is still `Linear`
and has the same members, so `active_ports_indices()` returns `[0, N)`; no call
turns `Linear` back into `Callback`. -/
theorem dense_is_absorbing {T : Type} (fuel : Nat) (calls : List PortCall)
    (st : State T) (b : Nat) (bank : PortBankCallBack)
    (hwf : well_formed fuel st) (hports : ∀ c ∈ calls, c.port < st.ports.length)
    (hb : st.banks[b]? = some bank) (hs : bank.strategy_ = Strategy.Linear) :
    ∃ es st2 bank2, run_calls fuel st calls = some (es, st2) ∧
      st2.banks[b]? = some bank2 ∧ bank2.strategy_ = Strategy.Linear ∧
      bank2.data_ = bank.data_ ∧
      bank2.active_ports_indices = some (List.range bank.data_.length) := by
  obtain ⟨es, st2, hrun⟩ := run_calls_returns fuel calls st hwf hports
  obtain ⟨bank2, hb2, hdata, hstrat⟩ := run_calls_keeps_dense fuel calls st st2 es hrun b bank hb
  refine ⟨es, st2, bank2, hrun, hb2, hstrat hs, hdata, ?_⟩
  simp only [PortBankCallBack.active_ports_indices, hstrat hs, if_true, hdata,
    iota_replicate, List.range_eq_range']

end reactor

namespace reactor

open multiport

/-- Witness for C16: five calls on the members of a bank that is `Linear`. -/
theorem dense_is_absorbing_witness :
    ∃ es st2 bank2,
      run_calls 1 bank_small_dense
          [PortCall.activate 2, PortCall.clear 0, PortCall.cleanup 1, PortCall.deactivate 2,
           PortCall.activate 0] = some (es, st2) ∧
        st2.banks[0]? = some bank2 ∧ bank2.strategy_ = Strategy.Linear ∧
        bank2.data_ = List.range 3 ∧
        bank2.active_ports_indices = some (List.range 3) :=
  dense_is_absorbing 1
    [PortCall.activate 2, PortCall.clear 0, PortCall.cleanup 1, PortCall.deactivate 2,
     PortCall.activate 0] bank_small_dense 0
    { data_ := List.range 3, active_ports_ := { storage := [0, 1] }, size_ := 2,
      strategy_ := Strategy.Linear }
    (by
      intro p port hp
      have hlt : p < 3 := (List.getElem?_eq_some.1 hp).1
      have hcases : p = 0 ∨ p = 1 ∨ p = 2 := by omega
      rcases hcases with h | h | h <;> subst h <;>
        (simp only [bank_small_dense, bank_small] at hp
         cases hp
         exact ⟨rfl, rfl⟩))
    (by decide) rfl rfl

end reactor

/-! ## The overflow branch cannot be reached -/

namespace reactor

open multiport

/-- Whether `is_present()` returns depends on the inward bindings only. -/
theorem is_present_isSome_set {T : Type} (st : State T) (p : Nat) (port port2 : Port T)
    (hp : st.ports[p]? = some port)
    (hsame : port2.inward_binding_ = port.inward_binding_) :
    ∀ (fuel q : Nat), (is_present (st.set_port p port2) fuel q).isSome
      = (is_present st fuel q).isSome := by
  intro fuel
  induction fuel with
  | zero => intro q; rfl
  | succ n ih =>
    intro q
    simp only [is_present]
    by_cases hq : q = p
    · subst hq
      rw [port_set_port_self st q port port2 hp, hp]
      simp only [hsame]
      cases port.inward_binding_ with
      | none => rfl
      | some u => exact ih u
    · have hne : (st.set_port p port2).ports[q]? = st.ports[q]? := by
        simp only [ports_set_port]
        exact List.getElem?_set_ne (Ne.symm hq)
      rw [hne]
      cases st.ports[q]? with
      | none => rfl
      | some k =>
        simp only
        cases k.inward_binding_ with
        | none => rfl
        | some u => exact ih u

theorem member_iff {T : Type} (fuel : Nat) (st : State T) (b p : Nat) :
    member fuel st b p ↔
      ∃ port pres, st.ports[p]? = some port ∧ port.active_ports_ = get_active_ports b ∧
        is_present st fuel p = some pres := by
  unfold member
  cases h : st.ports[p]? with
  | none => simp
  | some port =>
    cases hpres : is_present st fuel p with
    | none => simp
    | some pres => simp

theorem member_set_bank {T : Type} (fuel : Nat) (st : State T) (b q z : Nat)
    (k : PortBankCallBack) (h : member fuel st b q) :
    member fuel (st.set_bank z k) b q := by
  unfold member at h ⊢
  rw [ports_set_bank, is_present_of_ports st _ (ports_set_bank st z k)]
  exact h

theorem member_set_flag {T : Type} (fuel : Nat) (st : State T) (b q p : Nat) (port : Port T)
    (hp : st.ports[p]? = some port) (h : member fuel st b q) :
    member fuel (st.set_port p { port with present_ := false }) b q := by
  unfold member at h ⊢
  rw [is_present_isSome_set st p port { port with present_ := false } hp rfl fuel q]
  refine ⟨?_, h.2⟩
  by_cases hq : q = p
  · subst hq
    rw [port_set_port_self st q port _ hp]
    rw [hp] at h
    exact h.1
  · rw [ports_set_port, List.getElem?_set_ne (Ne.symm hq)]
    exact h.1

/-- One `activate()` on a member of a bank whose counter is in the safe range:
the call returns without exception and the counter stays in the safe range. -/
theorem activate_safe {T : Type} (fuel b C : Nat) (st : State T) (bank : PortBankCallBack)
    (p : Nat) (hb : st.banks[b]? = some bank) (hsafe : sparse_safe C bank)
    (hC : 2 ≤ C) (hC2 : C * 100 ≤ size_t_range) (hmem : member fuel st b p) :
    ∃ r bank2, activate fuel st p = some (Completion.returned r, st.set_bank b bank2) ∧
      sparse_safe C bank2 := by
  have hrange := size_t_range_eq
  obtain ⟨port, pres, hp, ha, hpres⟩ := (member_iff fuel st b p).1 hmem
  obtain ⟨hcap, hle, hcb⟩ := hsafe
  cases pres with
  | true =>
    refine ⟨false, bank, ?_, hcap, hle, hcb⟩
    rw [set_bank_same st b bank hb]
    simp only [activate, hp, hpres]
  | false =>
    cases hs : bank.strategy_ with
    | Linear =>
      refine ⟨false, bank, ?_, hcap, hle, hcb⟩
      rw [set_bank_same st b bank hb]
      exact activate_linear fuel st p b port bank false hp hpres ha hb hs
    | Callback =>
      have hlt := hcb hs
      have hslot : bank.size_ < C := by omega
      have hstep := activate_attached fuel st p b port bank hp hpres ha hb hs
      rw [if_neg (by omega), Nat.mod_eq_of_lt (by omega : bank.size_ + 1 < size_t_range),
        Nat.mod_eq_of_lt (by omega : bank.size_ * 100 < size_t_range), hcap] at hstep
      refine ⟨true, _, hstep, ?_, ?_, ?_⟩
      · simp only [SizeVector.store, SizeVector.capacity, List.length_set]
        exact hcap
      · simp only
        omega
      · simp only
        intro hnew
        by_cases hthr : bank.size_ * 100 / C > 20
        · rw [if_pos hthr] at hnew
          exact absurd hnew (by decide)
        · have : bank.size_ * 100 / C < 21 := by omega
          have := (Nat.div_lt_iff_lt_mul (by omega : 0 < C)).1 this
          omega

/-- One `clear()` on a member of a bank whose counter is in the safe range. -/
theorem clear_safe {T : Type} (fuel b C : Nat) (st : State T) (bank : PortBankCallBack)
    (p : Nat) (hb : st.banks[b]? = some bank) (hsafe : sparse_safe C bank)
    (hmem : member fuel st b p) :
    ∃ port bank2, st.ports[p]? = some port ∧
      clear st p = some ((st.set_port p { port with present_ := false }).set_bank b bank2) ∧
      sparse_safe C bank2 := by
  obtain ⟨port, pres, hp, ha, hpres⟩ := (member_iff fuel st b p).1 hmem
  obtain ⟨hcap, hle, hcb⟩ := hsafe
  refine ⟨port, _, hp, clear_attached st p b port bank hp ha hb, ?_⟩
  by_cases hzero : bank.size_ = 0
  · rw [if_pos hzero]
    exact ⟨hcap, hle, hcb⟩
  · rw [if_neg hzero]
    refine ⟨hcap, Nat.zero_le C, fun _ => ?_⟩
    simp only
    omega

end reactor

namespace reactor

open multiport

theorem run_calls_safe {T : Type} (fuel b C : Nat) (hC : 2 ≤ C)
    (hC2 : C * 100 ≤ size_t_range) :
    ∀ (calls : List PortCall) (st : State T) (bank : PortBankCallBack),
      st.banks[b]? = some bank → sparse_safe C bank →
      (∀ c ∈ calls, c.is_activate_or_clear = true ∧ member fuel st b c.port) →
      ∃ st2 bank2,
        run_calls fuel st calls = some (List.replicate calls.length none, st2) ∧
          st2.banks[b]? = some bank2 ∧ sparse_safe C bank2 := by
  intro calls
  induction calls with
  | nil =>
    intro st bank hb hsafe _
    exact ⟨st, bank, rfl, hb, hsafe⟩
  | cons call rest ih =>
    intro st bank hb hsafe hcalls
    obtain ⟨hkind, hmem⟩ := hcalls call (List.mem_cons_self call rest)
    have hrest : ∀ c ∈ rest, c.is_activate_or_clear = true ∧ member fuel st b c.port :=
      fun c hc => hcalls c (List.mem_cons_of_mem call hc)
    cases call with
    | activate p =>
      obtain ⟨r, bank1, hact, hsafe1⟩ := activate_safe fuel b C st bank p hb hsafe hC hC2 hmem
      obtain ⟨st2, bank2, hrun, hb2, hsafe2⟩ := ih (st.set_bank b bank1) bank1
        (bank_set_bank_self st b bank bank1 hb) hsafe1
        (fun c hc => ⟨(hrest c hc).1, member_set_bank fuel st b c.port b bank1 (hrest c hc).2⟩)
      refine ⟨st2, bank2, ?_, hb2, hsafe2⟩
      simp only [run_calls, PortCall.step, hact, hrun, List.length_cons, List.replicate_succ]
    | clear p =>
      obtain ⟨port, bank1, hp, hclear, hsafe1⟩ := clear_safe fuel b C st bank p hb hsafe hmem
      have hb0 : (st.set_port p { port with present_ := false }).banks[b]? = some bank := hb
      obtain ⟨st2, bank2, hrun, hb2, hsafe2⟩ := ih
        ((st.set_port p { port with present_ := false }).set_bank b bank1) bank1
        (bank_set_bank_self _ b bank bank1 hb0) hsafe1
        (fun c hc => ⟨(hrest c hc).1, member_set_bank fuel _ b c.port b bank1
          (member_set_flag fuel st b c.port p port hp (hrest c hc).2)⟩)
      refine ⟨st2, bank2, ?_, hb2, hsafe2⟩
      simp only [run_calls, PortCall.step, hclear, hrun, List.length_cons, List.replicate_succ]
    | cleanup p => simp [PortCall.is_activate_or_clear] at hkind
    | deactivate p => simp [PortCall.is_activate_or_clear] at hkind

/-- C17. Overflow branch unreachable: for a bank of capacity `C` with
`2 ≤ C` (and `C * 100 ≤ 2 ^ 64`, so that the threshold product does not wrap)
that starts with count 0 (in the `Callback` strategy, or in any other), every
sequence of `activate()` and `clear()` calls on its member ports runs without any exception;
afterwards the capacity is still `C` (the threshold division has a nonzero
divisor), the count is at most `C`, and while the strategy is `Callback` the
count, which is the slot of the next store, is below `C`. -/
theorem overflow_unreachable {T : Type} (fuel b C : Nat) (st : State T)
    (bank : PortBankCallBack) (calls : List PortCall)
    (hb : st.banks[b]? = some bank) (hcount : bank.size_ = 0)
    (hcap : bank.active_ports_.capacity = C) (hC : 2 ≤ C) (hC2 : C * 100 ≤ size_t_range)
    (hcalls : ∀ c ∈ calls, c.is_activate_or_clear = true ∧ member fuel st b c.port) :
    ∃ st2 bank2,
      run_calls fuel st calls = some (List.replicate calls.length none, st2) ∧
        st2.banks[b]? = some bank2 ∧ bank2.active_ports_.capacity = C ∧
        bank2.size_ ≤ C ∧ (bank2.strategy_ = Strategy.Callback → bank2.size_ < C) := by
  obtain ⟨st2, bank2, hrun, hb2, hcap2, hle2, hcb2⟩ := run_calls_safe fuel b C hC hC2 calls st
    bank hb ⟨hcap, by omega, fun _ => by omega⟩ hcalls
  exact ⟨st2, bank2, hrun, hb2, hcap2, hle2, fun h => by have := hcb2 h; omega⟩

/-- Witness for C17: the bank of capacity 2 with three members, activated past
its capacity with a `clear()` in between. -/
theorem overflow_unreachable_witness :
    ∃ st2 bank2,
      run_calls 1 bank_small
          [PortCall.activate 0, PortCall.activate 1, PortCall.activate 2, PortCall.clear 0,
           PortCall.activate 1, PortCall.activate 2, PortCall.activate 0]
          = some (List.replicate 7 none, st2) ∧
        st2.banks[0]? = some bank2 ∧ bank2.active_ports_.capacity = 2 ∧
        bank2.size_ ≤ 2 ∧ (bank2.strategy_ = Strategy.Callback → bank2.size_ < 2) :=
  overflow_unreachable 1 0 2 bank_small
    { (PortBankCallBack.init.reserve 1) with data_ := List.range 3 }
    [PortCall.activate 0, PortCall.activate 1, PortCall.activate 2, PortCall.clear 0,
     PortCall.activate 1, PortCall.activate 2, PortCall.activate 0]
    rfl rfl rfl (by decide) (by decide) (by decide)

end reactor

/-! ## Activation without effect -/

namespace reactor

open multiport

theorem activate_present {T : Type} (fuel : Nat) (st : State T) (p : Nat)
    (hpres : is_present st fuel p = some true) :
    activate fuel st p = some (Completion.returned false, st) := by
  cases hp : st.ports[p]? with
  | none =>
    cases fuel with
    | zero => simp [is_present] at hpres
    | succ k => simp [is_present, hp] at hpres
  | some port => simp only [activate, hp, hpres]

/-- C18. Activation is a no-op unless the port is absent and the bank is in the
`Callback` strategy: when `is_present()` is true on the port, or when the port is
a member of a bank in the `Linear` strategy, `activate()` returns false and the
state (count, index sequence and strategy of every bank included) is unchanged.
Likewise the set callback of `BaseMultiport` returns false and leaves the
multiport unchanged when the port is present; otherwise, the old count being
below the size of `present_ports_`, it stores the index at slot `old count`,
increases the count by exactly 1 and returns true. -/
theorem activation_noop {T : Type} (fuel : Nat) (st : State T) (p : Nat) :
    (is_present st fuel p = some true →
        activate fuel st p = some (Completion.returned false, st)) ∧
      (∀ (b : Nat) (port : Port T) (bank : PortBankCallBack) (pres : Bool),
        st.ports[p]? = some port → is_present st fuel p = some pres →
        port.active_ports_ = get_active_ports b → st.banks[b]? = some bank →
        bank.strategy_ = Strategy.Linear →
        activate fuel st p = some (Completion.returned false, st)) ∧
      (∀ (m : BaseMultiport) (index : Nat), is_present st fuel p = some true →
        m.get_set_callback fuel st index p = some (false, m)) ∧
      (∀ (m : BaseMultiport) (index : Nat), is_present st fuel p = some false →
        m.size_ < m.present_ports_.length → m.present_ports_.length < size_t_range →
        m.get_set_callback fuel st index p
          = some (true, { size_ := m.size_ + 1,
                          present_ports_ := m.present_ports_.set m.size_ index })) := by
  refine ⟨activate_present fuel st p, ?_, ?_, ?_⟩
  · intro b port bank pres hp hpres ha hb hs
    exact activate_linear fuel st p b port bank pres hp hpres ha hb hs
  · intro m index hpres
    simp only [BaseMultiport.get_set_callback, hpres]
  · intro m index hpres hslot hsize
    have hmod : (m.size_ + 1) % size_t_range = m.size_ + 1 := Nat.mod_eq_of_lt (by omega)
    simp only [BaseMultiport.get_set_callback, hpres, BaseMultiport.set_present, hmod,
      if_pos hslot]

/-- Witness for C18: a present port and a member of a `Linear` bank on the
side of `activate()`, a present and an absent port on the side of the callback. -/
theorem activation_noop_witness :
    activate 1 wire2 0 = some (Completion.returned false, wire2) ∧
      activate 1 bank_small_dense 2 = some (Completion.returned false, bank_small_dense) ∧
      BaseMultiport.get_set_callback 1 wire2 { size_ := 1, present_ports_ := [4, 0, 0] } 2 0
        = some (false, { size_ := 1, present_ports_ := [4, 0, 0] }) ∧
      BaseMultiport.get_set_callback 1 wire2 { size_ := 1, present_ports_ := [4, 0, 0] } 2 1
        = some (true, { size_ := 2, present_ports_ := [4, 2, 0] }) :=
  ⟨(activation_noop 1 wire2 0).1 rfl,
   (activation_noop 1 bank_small_dense 2).2.1 0
     { active_ports_ := get_active_ports 0, index_ := 2 }
     { data_ := List.range 3, active_ports_ := { storage := [0, 1] }, size_ := 2,
       strategy_ := Strategy.Linear } false rfl rfl rfl rfl rfl,
   (activation_noop 1 wire2 0).2.2.1 { size_ := 1, present_ports_ := [4, 0, 0] } 2 rfl,
   (activation_noop 1 wire2 1).2.2.2 { size_ := 1, present_ports_ := [4, 0, 0] } 2 rfl
     (by decide) (by decide)⟩

end reactor
